import Mathlib

/-!
# Verification of the wohnungsscraper change-tracking core

Shallow embedding of the per-site storage and change-detection core of the
`wohnungsscraper` repository (`src/wohnung/site_storage.py`,
`src/wohnung/change_detector.py`, `src/wohnung/marker_detector.py`,
`src/wohnung/models.py`), together with proofs or refutations of the frozen
claims about it.

Python dictionaries are embedded as insertion-ordered association lists with
unique keys; timestamps (`datetime.now()`) are abstract `Nat` instants passed
in explicitly; JSON-serialized field values are a small `Value` type; the
fallible file reads are `Except`.
-/

namespace Wohnung

/-- A JSON-serialized field value as produced by `Flat.model_dump(mode="json")`.
`vnum` covers the numeric fields (`price`/`size`/`rooms`, compared only for
exact equality in the source, hence embedded as `Rat`); `vtime` covers
ISO-serialized datetimes; `vstrs` covers the `markers` string list. -/
inductive Value where
  | vstr (s : String)
  | vnum (q : Rat)
  | vtime (t : Nat)
  | vstrs (l : List String)
deriving DecidableEq, Repr

/-- The `Flat` model of `models.py`: the normalized apartment listing.
URL-typed fields are embedded as their serialized string form; `found_at`
as an abstract instant. -/
structure Flat where
  id : String
  title : String
  url : String
  price : Option Rat
  size : Option Rat
  rooms : Option Rat
  location : String
  description : Option String
  image_url : Option String
  source : String
  markers : List String
  found_at : Nat
deriving DecidableEq, Repr

/-- Field access on the serialized form of a `Flat`
(`flat.model_dump(mode="json")` followed by Python's `dict.get(field)`):
returns `none` both for an absent key and for a field whose value is
JSON `null`, exactly as `dict.get` does for pydantic's dump. -/
def Flat.dumpGet (f : Flat) (field : String) : Option Value :=
  if field = "id" then some (.vstr f.id)
  else if field = "title" then some (.vstr f.title)
  else if field = "url" then some (.vstr f.url)
  else if field = "price" then f.price.map .vnum
  else if field = "size" then f.size.map .vnum
  else if field = "rooms" then f.rooms.map .vnum
  else if field = "location" then some (.vstr f.location)
  else if field = "description" then f.description.map .vstr
  else if field = "image_url" then f.image_url.map .vstr
  else if field = "source" then some (.vstr f.source)
  else if field = "markers" then some (.vstrs f.markers)
  else if field = "found_at" then some (.vtime f.found_at)
  else none

/-- The `status` literal of `ApartmentMetadata`: `"active" | "removed"`. -/
inductive Status where
  | active
  | removed
deriving DecidableEq, Repr

/-- `ApartmentMetadata` of `site_storage.py`. Since the stored `data` dict is
always a `Flat.model_dump` (serialization is injective on `Flat`), the
snapshot is embedded as the `Flat` itself; dict equality on the dump agrees
with `Flat` equality, and field access goes through `Flat.dumpGet`. -/
structure ApartmentMetadata where
  apartment_id : String
  status : Status
  first_seen : Nat
  last_seen : Nat
  last_updated : Nat
  data : Flat
deriving DecidableEq, Repr

/-- A Python `dict[str, ApartmentMetadata]` as an insertion-ordered
association list with unique keys. -/
abbrev Apartments := List (String × ApartmentMetadata)

/-- `SiteStorageData` of `site_storage.py`. -/
structure SiteStorageData where
  site : String
  last_scrape : Nat
  apartments : Apartments
deriving DecidableEq, Repr

/-! ## Python dict primitives on association lists -/

/-- `d[k]` / `d.get(k)`: first binding of `k`. -/
def dictLookup (k : String) : List (String × α) → Option α
  | [] => none
  | (k', v) :: rest => if k' = k then some v else dictLookup k rest

/-- `d[k] = v`: overwrite in place if the key exists (keeping its position,
as Python dicts do), else append at the end. -/
def dictInsert (k : String) (v : α) : List (String × α) → List (String × α)
  | [] => [(k, v)]
  | (k', v') :: rest => if k' = k then (k, v) :: rest else (k', v') :: dictInsert k v rest

/-- `d.keys()` in insertion order. -/
def dictKeys (d : List (String × α)) : List String :=
  d.map Prod.fst

/-! ## Change detector (`change_detector.py`) -/

/-- `ChangeDetectorConfig` with its source defaults. -/
structure ChangeDetectorConfig where
  monitored_fields : List String := ["price", "title", "size", "rooms", "location", "description"]
  ignore_fields : List String := ["found_at", "last_updated"]
deriving Repr

/-- The `Literal["new", "updated", "removed"]` of `ApartmentChange`. -/
inductive ChangeType where
  | new
  | updated
  | removed
deriving DecidableEq, Repr

/-- `ApartmentChange` of `change_detector.py`. The `changes` dict is kept as
the list of `(field, (old, new))` pairs in the order `_compare_fields`
produces them (its keys, the monitored fields, are pairwise distinct for
every configuration the program constructs). -/
structure ApartmentChange where
  change_type : ChangeType
  apartment_id : String
  timestamp : Nat
  changes : List (String × (Option Value × Option Value))
  apartment_data : Flat
deriving DecidableEq, Repr

/-- The body of the `for field in self.config.monitored_fields` loop of
`ChangeDetector._compare_fields`. -/
def compareStep (cfg : ChangeDetectorConfig) (old_data new_data : Flat)
    (changes : List (String × (Option Value × Option Value))) (field : String) :
    List (String × (Option Value × Option Value)) :=
  if field ∈ cfg.ignore_fields then changes
  else
    let old_value := old_data.dumpGet field
    let new_value := new_data.dumpGet field
    if old_value ≠ new_value then changes ++ [(field, (old_value, new_value))]
    else changes

/-- `ChangeDetector._compare_fields`: field-by-field comparison of the old
stored snapshot against the new dump, restricted to the monitored fields
minus the ignored ones, collecting every differing field. -/
def compare_fields (cfg : ChangeDetectorConfig) (old_data new_data : Flat) :
    List (String × (Option Value × Option Value)) :=
  cfg.monitored_fields.foldl (compareStep cfg old_data new_data) []

/-- `{flat.id: flat for flat in new_apartments}`: index the batch by id,
later occurrences overwriting earlier ones. -/
def indexById (new_apartments : List Flat) : List (String × Flat) :=
  new_apartments.foldl (fun d f => dictInsert f.id f d) []

/-- `ChangeDetector.detect_changes`: one `new` change per id only in the
batch, one `updated` change per id in both whose monitored comparison is
non-empty, one `removed` change per id only in the old snapshot.  The Python
sets `new_ids - old_ids` etc. are embedded as filters over the key lists
(set iteration order is unspecified in the source; only membership is
claimed of the result). -/
def detect_changes (cfg : ChangeDetectorConfig) (now : Nat)
    (old_apartments : List (String × Flat)) (new_apartments : List Flat) :
    List ApartmentChange :=
  let new_by_id := indexById new_apartments
  let old_ids := dictKeys old_apartments
  let new_ids := dictKeys new_by_id
  let newChanges := (new_ids.filter (fun i => decide (i ∉ old_ids))).filterMap
    (fun i => (dictLookup i new_by_id).map (fun f =>
      { change_type := .new, apartment_id := i, timestamp := now,
        changes := [], apartment_data := f }))
  let updChanges := (old_ids.filter (fun i => decide (i ∈ new_ids))).filterMap
    (fun i =>
      match dictLookup i old_apartments, dictLookup i new_by_id with
      | some old_data, some new_flat =>
          let field_changes := compare_fields cfg old_data new_flat
          if field_changes ≠ [] then
            some { change_type := .updated, apartment_id := i, timestamp := now,
                   changes := field_changes, apartment_data := new_flat }
          else none
      | _, _ => none)
  let remChanges := (old_ids.filter (fun i => decide (i ∉ new_ids))).filterMap
    (fun i => (dictLookup i old_apartments).map (fun old_data =>
      { change_type := .removed, apartment_id := i, timestamp := now,
        changes := [], apartment_data := old_data }))
  newChanges ++ updChanges ++ remChanges

/-! ## Per-site store (`site_storage.py`) -/

/-- Result of `SiteStorage.save_apartments`: the document it writes back and
the three id lists it returns. -/
structure SaveResult where
  store : SiteStorageData
  new_ids : List String
  updated_ids : List String
  removed_ids : List String
deriving DecidableEq, Repr

/-- One iteration of the `for flat in flats` loop of `save_apartments`.
`existing_ids` is the id set frozen before the loop
(`set(site_data.apartments.keys())`); the accumulator carries the mutated
`apartments` dict and the `new_ids` / `updated_ids` lists.  The `none` arm of
the lookup is unreachable: a key in `existing_ids` is in the dict initially
and no iteration ever removes a key. -/
def stepFlat (now : Nat) (existing_ids : List String) :
    Apartments × List String × List String → Flat →
    Apartments × List String × List String
  | (apts, new_ids, updated_ids), flat =>
    if flat.id ∈ existing_ids then
      match dictLookup flat.id apts with
      | some existing =>
          let was_removed := existing.status = Status.removed
          let touched := { existing with last_seen := now, status := Status.active }
          if existing.data ≠ flat ∨ was_removed then
            (dictInsert flat.id { touched with data := flat, last_updated := now } apts,
             new_ids, updated_ids ++ [flat.id])
          else
            (dictInsert flat.id touched apts, new_ids, updated_ids)
      | none => (apts, new_ids, updated_ids)
    else
      (dictInsert flat.id
        { apartment_id := flat.id, status := Status.active, first_seen := now,
          last_seen := now, last_updated := now, data := flat } apts,
       new_ids ++ [flat.id], updated_ids)

/-- One iteration of the `for apt_id in existing_ids - current_ids` loop:
mark the apartment `removed` and record its id, but only if it is currently
`active`. -/
def markRemoved (acc : Apartments × List String) (apt_id : String) :
    Apartments × List String :=
  match dictLookup apt_id acc.1 with
  | some apt =>
      if apt.status = Status.active then
        (dictInsert apt_id { apt with status := Status.removed } acc.1,
         acc.2 ++ [apt_id])
      else acc
  | none => acc

/-- `SiteStorage.save_apartments` on an already-read document (`stored` is
what `_read_site_data` returned): reconcile the batch against the stored
apartments, then mark the missing ones removed, then stamp `last_scrape`.
The final `_write_site_data` persists `store` as the new document. -/
def save_apartments (now : Nat) (site_name : String)
    (stored : Option SiteStorageData) (flats : List Flat)
    (mark_missing_as_removed : Bool) : SaveResult :=
  let site_data := stored.getD { site := site_name, last_scrape := now, apartments := [] }
  let current_ids := flats.map Flat.id
  let existing_ids := dictKeys site_data.apartments
  let step1 := flats.foldl (stepFlat now existing_ids) (site_data.apartments, [], [])
  let step2 :=
    if mark_missing_as_removed then
      (existing_ids.filter (fun i => decide (i ∉ current_ids))).foldl
        markRemoved (step1.1, [])
    else (step1.1, [])
  { store := { site := site_data.site, last_scrape := now, apartments := step2.1 },
    new_ids := step1.2.1,
    updated_ids := step1.2.2,
    removed_ids := step2.2 }

/-- The state of one site's JSON document on disk: absent, present but
unparseable, or parseable into a `SiteStorageData`. -/
inductive SiteFile where
  | missing
  | malformed
  | wellFormed (d : SiteStorageData)

/-- `SiteStorage._read_site_data`: a missing file returns `None`; an
existing file is fed to `json.load` / `datetime.fromisoformat` with no
exception handler, so unparseable content propagates the parse error. -/
def read_site_data : SiteFile → Except String (Option SiteStorageData)
  | .missing => Except.ok none
  | .malformed => Except.error "json.JSONDecodeError"
  | .wellFormed d => Except.ok (some d)

/-- `SiteStorage.get_apartments`: empty dict when the read returned `None`. -/
def get_apartments (file : SiteFile) : Except String Apartments :=
  match read_site_data file with
  | .error e => .error e
  | .ok none => .ok []
  | .ok (some d) => .ok d.apartments

/-- `SiteStorage.get_active_apartments`. -/
def get_active_apartments (file : SiteFile) : Except String Apartments :=
  match get_apartments file with
  | .error e => .error e
  | .ok apts => .ok (apts.filter (fun p => decide (p.2.status = Status.active)))

/-- `SiteStorage.get_apartments_with_markers`: keep the apartments whose
`data["markers"]` contains at least one of `marker_names`. -/
def get_apartments_with_markers (file : SiteFile) (marker_names : List String)
    (active_only : Bool) : Except String Apartments :=
  match (if active_only then get_active_apartments file else get_apartments file) with
  | .error e => .error e
  | .ok apartments =>
      .ok (apartments.filter (fun p =>
        marker_names.any (fun marker => p.2.data.markers.contains marker)))

/-- `SiteStorage.save_apartments` including the initial `_read_site_data`:
the uncaught parse error of a malformed document propagates. -/
def save_apartments_file (now : Nat) (site_name : String) (file : SiteFile)
    (flats : List Flat) (mark_missing_as_removed : Bool) :
    Except String SaveResult :=
  match read_site_data file with
  | .error e => .error e
  | .ok stored => .ok (save_apartments now site_name stored flats mark_missing_as_removed)

/-! ## Change history (`_save_change_history` / `get_change_history`) -/

/-- `SiteStorage._save_change_history`: append one line per change to the
site's `_history.jsonl` file (embedded as the list of changes in file
order). -/
def save_change_history (history changes : List ApartmentChange) :
    List ApartmentChange :=
  history ++ changes

/-- Python's `xs[:n]` slice on a list, including the negative-index case. -/
def pySlice (n : Int) (xs : List α) : List α :=
  if 0 ≤ n then xs.take n.toNat else xs.take ((xs.length : Int) + n).toNat

/-- `SiteStorage.get_change_history`: read the lines in file order, reverse
to most-recent-first, then `if limit: changes = changes[:limit]` — note a
limit of `0` is falsy in Python, so it does not truncate. -/
def get_change_history (history : List ApartmentChange) (limit : Option Int) :
    List ApartmentChange :=
  let changes := history.reverse
  match limit with
  | none => changes
  | some n => if n ≠ 0 then pySlice n changes else changes

/-! ## Marker detector (`marker_detector.py`) -/

/-- `MarkerConfig` of `site_config.py` (with its defaults). -/
structure MarkerConfig where
  name : String
  label : String
  patterns : List String
  priority : String := "medium"
  search_in : List String := ["title", "description"]
deriving Repr

/-- The characters of the raw string `r"^$.*+?[]\x7b\x7d()\|"` used by
`_matches_marker` to decide whether a pattern looks like a regex. -/
def regexSpecialChars : List Char :=
  ['^', '$', '.', '*', '+', '?', '[', ']', '\x7b', '\x7d', '(', ')', '\\', '|']

/-- `any(char in pattern for char in r"...")`. -/
def looksLikeRegex (pattern : String) : Bool :=
  regexSpecialChars.any (fun c => pattern.contains c)

/-- Python's `needle in haystack` on strings: contiguous substring test. -/
def substrOccurs (needle haystack : List Char) : Bool :=
  (List.range (haystack.length + 1)).any
    (fun i => List.isPrefixOf needle (haystack.drop i))

/-- Python's `str.lower()` (ASCII range, which is all the source compares). -/
def pyLower (s : String) : String :=
  ⟨s.data.map Char.toLower⟩

/-- Python's `sep.join(parts)`. -/
def joinWith (sep : String) : List String → String
  | [] => ""
  | [s] => s
  | s :: rest => s ++ sep ++ joinWith sep rest

/-- The `text_lower` that `_matches_marker` assembles: the configured fields
that are present and non-empty (Python string truthiness), joined with a
space and lowercased. -/
def markerSearchText (marker : MarkerConfig) (apartment : Flat) : String :=
  let text_parts :=
    (if "title" ∈ marker.search_in ∧ apartment.title ≠ "" then [apartment.title] else []) ++
    (match apartment.description with
     | some d => if "description" ∈ marker.search_in ∧ d ≠ "" then [d] else []
     | none => [])
  pyLower (joinWith " " text_parts)

/-- The per-pattern body of the `for pattern in marker.patterns` loop of
`_matches_marker`.  `recompile` abstracts Python's `re` module:
`recompile p = none` models `re.compile`/`re.search` raising `re.error` on
pattern `p` (an invalid regex), `recompile p = some search` models a valid
pattern whose `re.search(p, text, re.IGNORECASE)` truthiness on `text` is
`search text`. -/
def matchesPattern (recompile : String → Option (String → Bool))
    (pattern text_lower : String) : Bool :=
  let pattern_lower := pyLower pattern
  if looksLikeRegex pattern then
    match recompile pattern_lower with
    | some search => search text_lower
    | none => substrOccurs pattern_lower.toList text_lower.toList
  else substrOccurs pattern_lower.toList text_lower.toList

/-- `MarkerDetector._matches_marker`: true when any pattern matches the
assembled lowercased text. -/
def matchesMarker (recompile : String → Option (String → Bool))
    (apartment : Flat) (marker : MarkerConfig) : Bool :=
  let text_lower := markerSearchText marker apartment
  marker.patterns.any (fun pattern => matchesPattern recompile pattern text_lower)

/-- The `old_apartments = {apt_id: apt.data for apt_id, apt in apartments.items()}`
snapshot that `save_apartments_with_changes` hands to the change detector. -/
def storedData (apts : Apartments) : List (String × Flat) :=
  apts.map (fun p => (p.1, p.2.data))

/-- `SiteStorage.save_apartments_with_changes` (without the optional history
tracking): diff against the pre-write state, then persist. -/
def save_apartments_with_changes (now : Nat) (site_name : String)
    (file : SiteFile) (flats : List Flat) (mark_missing_as_removed : Bool) :
    Except String (List ApartmentChange × SaveResult) :=
  match get_apartments file with
  | .error e => .error e
  | .ok apartments =>
      let old_apartments := storedData apartments
      let changes := detect_changes {} now old_apartments flats
      match save_apartments_file now site_name file flats mark_missing_as_removed with
      | .error e => .error e
      | .ok r => .ok (changes, r)

/-! ## Concrete sample data used in counterexamples and witnesses -/

/-- A sample active listing. -/
def flatA : Flat :=
  { id := "a1", title := "Nice flat", url := "https://x/1", price := some 1000,
    size := some 50, rooms := some 2, location := "Wien", description := none,
    image_url := none, source := "siteA", markers := ["rental"], found_at := 0 }

/-- `flatA` with a different title (a monitored field). -/
def flatA2 : Flat := { flatA with title := "Renovated flat" }

/-- `flatA` rescraped later: only `found_at` (not monitored) differs, so the
serialized dict differs while the monitored data is identical. -/
def flatAts : Flat := { flatA with found_at := 5 }

/-- Stored metadata for `flatA`, active. -/
def metaA : ApartmentMetadata :=
  { apartment_id := "a1", status := Status.active, first_seen := 0,
    last_seen := 0, last_updated := 0, data := flatA }

/-- Stored metadata for `flatA`, already marked removed. -/
def metaR : ApartmentMetadata := { metaA with status := Status.removed }

/-- A store holding `flatA` as active. -/
def storeA : SiteStorageData :=
  { site := "siteA", last_scrape := 0, apartments := [("a1", metaA)] }

/-- A store holding `flatA` as removed. -/
def storeR : SiteStorageData :=
  { site := "siteA", last_scrape := 0, apartments := [("a1", metaR)] }

/-- A store with no apartments. -/
def storeEmpty : SiteStorageData :=
  { site := "siteA", last_scrape := 0, apartments := [] }

/-- A sample change-history entry. -/
def sampleChange : ApartmentChange :=
  { change_type := ChangeType.new, apartment_id := "a1", timestamp := 0,
    changes := [], apartment_data := flatA }

/-- A marker whose single pattern contains `[`, which Python's `re` rejects
(`re.error`), so it falls back to substring matching. -/
def markerWbs : MarkerConfig :=
  { name := "wbs", label := "WBS", patterns := ["wbs["],
    priority := "medium", search_in := ["title", "description"] }

/-! ## Derived outcome of processing one existing apartment

`existingResult now m f` is what the existing-apartment branch of the
`for flat in flats` loop leaves in the dict for a stored entry `m` hit by
flat `f`: `last_seen` and `status` are always touched; `data`/`last_updated`
only when the data differs or the entry was removed. -/

def existingResult (now : Nat) (m : ApartmentMetadata) (f : Flat) :
    ApartmentMetadata :=
  if m.data ≠ f ∨ m.status = Status.removed then
    { m with last_seen := now, status := Status.active,
             data := f, last_updated := now }
  else
    { m with last_seen := now, status := Status.active }

/-- The entry created for a flat whose id is not in the frozen existing set. -/
def freshEntry (now : Nat) (f : Flat) : ApartmentMetadata :=
  { apartment_id := f.id, status := Status.active, first_seen := now,
    last_seen := now, last_updated := now, data := f }

/-! ## Lemmas about the dict primitives -/

theorem dictLookup_insert_self (k : String) (v : α) (d : List (String × α)) :
    dictLookup k (dictInsert k v d) = some v := by
  induction d with
  | nil => simp [dictInsert, dictLookup]
  | cons p rest ih =>
    by_cases h : p.1 = k
    · simp [dictInsert, dictLookup, h]
    · simp [dictInsert, dictLookup, h, ih]

theorem dictLookup_insert_ne (k k' : String) (v : α) (d : List (String × α))
    (h : k' ≠ k) : dictLookup k' (dictInsert k v d) = dictLookup k' d := by
  induction d with
  | nil => simp [dictInsert, dictLookup, Ne.symm h]
  | cons p rest ih =>
    by_cases hp : p.1 = k
    · subst hp
      simp [dictInsert, dictLookup, Ne.symm h]
    · by_cases hp' : p.1 = k'
      · simp [dictInsert, dictLookup, hp, hp', h]
      · simp [dictInsert, dictLookup, hp, hp', ih]

theorem dictKeys_cons (p : String × α) (rest : List (String × α)) :
    dictKeys (p :: rest) = p.1 :: dictKeys rest := rfl

theorem mem_dictKeys (k : String) (d : List (String × α)) :
    k ∈ dictKeys d ↔ (dictLookup k d).isSome := by
  induction d with
  | nil => simp [dictKeys, dictLookup]
  | cons p rest ih =>
    rw [dictKeys_cons, List.mem_cons]
    by_cases hp : p.1 = k
    · simp [dictLookup, hp]
    · simp only [dictLookup, hp, if_false]
      rw [← ih]
      simp [Ne.symm hp]

theorem dictLookup_mem_keys (k : String) (v : α) (d : List (String × α))
    (h : dictLookup k d = some v) : k ∈ dictKeys d := by
  rw [mem_dictKeys, h]
  rfl

theorem dictLookup_isSome_of_mem (k : String) (d : List (String × α))
    (h : k ∈ dictKeys d) : ∃ v, dictLookup k d = some v := by
  rw [mem_dictKeys] at h
  exact Option.isSome_iff_exists.1 h

theorem mem_dictKeys_insert (k k' : String) (v : α) (d : List (String × α)) :
    k' ∈ dictKeys (dictInsert k v d) ↔ k' = k ∨ k' ∈ dictKeys d := by
  by_cases h : k' = k
  · subst h
    simp [mem_dictKeys, dictLookup_insert_self]
  · simp [mem_dictKeys, dictLookup_insert_ne k k' v d h, h]

theorem dictKeys_insert (k : String) (v : α) (d : List (String × α)) :
    dictKeys (dictInsert k v d) =
      if k ∈ dictKeys d then dictKeys d else dictKeys d ++ [k] := by
  induction d with
  | nil => simp [dictInsert, dictKeys]
  | cons p rest ih =>
    by_cases hp : p.1 = k
    · subst hp
      rw [show dictInsert p.1 v (p :: rest) = (p.1, v) :: rest by simp [dictInsert]]
      simp [dictKeys_cons]
    · rw [show dictInsert k v (p :: rest) = p :: dictInsert k v rest by simp [dictInsert, hp]]
      rw [dictKeys_cons, dictKeys_cons, ih]
      by_cases hm : k ∈ dictKeys rest
      · simp [hm, Ne.symm hp]
      · simp [hm, Ne.symm hp]

theorem dictKeys_insert_nodup (k : String) (v : α) (d : List (String × α))
    (h : (dictKeys d).Nodup) : (dictKeys (dictInsert k v d)).Nodup := by
  rw [dictKeys_insert]
  by_cases hm : k ∈ dictKeys d
  · simpa [hm]
  · simp [hm, h, List.nodup_append]

theorem existingResult_data (now : Nat) (m : ApartmentMetadata) (f : Flat) :
    (existingResult now m f).data = f := by
  unfold existingResult
  by_cases h : m.data ≠ f ∨ m.status = Status.removed
  · simp [h]
  · push_neg at h
    simp [h.1, h.2]

theorem existingResult_status (now : Nat) (m : ApartmentMetadata) (f : Flat) :
    (existingResult now m f).status = Status.active := by
  unfold existingResult
  by_cases h : m.data ≠ f ∨ m.status = Status.removed <;> simp [h]

/-! ## Step lemmas for the `for flat in flats` loop -/

theorem stepFlat_lookup_ne (now : Nat) (E : List String)
    (acc : Apartments × List String × List String) (f : Flat) (id : String)
    (h : id ≠ f.id) :
    dictLookup id (stepFlat now E acc f).1 = dictLookup id acc.1 := by
  obtain ⟨apts, nids, uids⟩ := acc
  unfold stepFlat
  by_cases hE : f.id ∈ E
  · simp only [hE, if_true]
    cases hm : dictLookup f.id apts with
    | none => rfl
    | some existing =>
      by_cases hcond : existing.data ≠ f ∨ existing.status = Status.removed
      · simp [hcond, dictLookup_insert_ne _ _ _ _ h]
      · simp [hcond, dictLookup_insert_ne _ _ _ _ h]
  · simp [hE, dictLookup_insert_ne _ _ _ _ h]

theorem stepFlat_newIds (now : Nat) (E : List String)
    (acc : Apartments × List String × List String) (f : Flat) :
    (stepFlat now E acc f).2.1 =
      if f.id ∈ E then acc.2.1 else acc.2.1 ++ [f.id] := by
  obtain ⟨apts, nids, uids⟩ := acc
  unfold stepFlat
  by_cases hE : f.id ∈ E
  · simp only [hE, if_true]
    cases hm : dictLookup f.id apts with
    | none => rfl
    | some existing =>
      by_cases hcond : existing.data ≠ f ∨ existing.status = Status.removed
      · simp [hcond]
      · simp [hcond]
  · simp [hE]

theorem stepFlat_updated_sub (now : Nat) (E : List String)
    (acc : Apartments × List String × List String) (f : Flat) :
    (stepFlat now E acc f).2.2 = acc.2.2 ∨
      ((stepFlat now E acc f).2.2 = acc.2.2 ++ [f.id] ∧ f.id ∈ E) := by
  obtain ⟨apts, nids, uids⟩ := acc
  unfold stepFlat
  by_cases hE : f.id ∈ E
  · simp only [hE, if_true]
    cases hm : dictLookup f.id apts with
    | none => exact Or.inl rfl
    | some existing =>
      by_cases hcond : existing.data ≠ f ∨ existing.status = Status.removed
      · exact Or.inr ⟨by simp [hcond], by simp [hE]⟩
      · exact Or.inl (by simp [hcond])
  · exact Or.inl (by simp [hE])

theorem stepFlat_updated_mem_ne (now : Nat) (E : List String)
    (acc : Apartments × List String × List String) (f : Flat) (id : String)
    (h : id ≠ f.id) :
    (id ∈ (stepFlat now E acc f).2.2 ↔ id ∈ acc.2.2) := by
  rcases stepFlat_updated_sub now E acc f with h1 | ⟨h1, _⟩ <;> simp [h1, h]

theorem stepFlat_updated_mem_not_existing (now : Nat) (E : List String)
    (acc : Apartments × List String × List String) (f : Flat) (id : String)
    (h : id ∉ E) :
    (id ∈ (stepFlat now E acc f).2.2 ↔ id ∈ acc.2.2) := by
  rcases stepFlat_updated_sub now E acc f with h1 | ⟨h1, h2⟩
  · simp [h1]
  · have : id ≠ f.id := fun hid => h (hid ▸ h2)
    simp [h1, this]

theorem stepFlat_mem_keys (now : Nat) (E : List String)
    (acc : Apartments × List String × List String) (f : Flat) (id : String)
    (h : id ∈ dictKeys acc.1) : id ∈ dictKeys (stepFlat now E acc f).1 := by
  obtain ⟨apts, nids, uids⟩ := acc
  unfold stepFlat
  by_cases hE : f.id ∈ E
  · simp only [hE, if_true]
    cases hm : dictLookup f.id apts with
    | none => exact h
    | some existing =>
      by_cases hcond : existing.data ≠ f ∨ existing.status = Status.removed
      · simpa [hcond, mem_dictKeys_insert] using Or.inr h
      · simpa [hcond, mem_dictKeys_insert] using Or.inr h
  · simpa [hE, mem_dictKeys_insert] using Or.inr h

theorem stepFlat_self_mem_keys (now : Nat) (E : List String)
    (acc : Apartments × List String × List String) (f : Flat)
    (hEsub : ∀ k ∈ E, k ∈ dictKeys acc.1) :
    f.id ∈ dictKeys (stepFlat now E acc f).1 := by
  obtain ⟨apts, nids, uids⟩ := acc
  unfold stepFlat
  by_cases hE : f.id ∈ E
  · simp only [hE, if_true]
    cases hm : dictLookup f.id apts with
    | none =>
      obtain ⟨v, hv⟩ := dictLookup_isSome_of_mem _ _ (hEsub f.id hE)
      rw [hv] at hm
      exact absurd hm (by simp)
    | some existing =>
      by_cases hcond : existing.data ≠ f ∨ existing.status = Status.removed
      · simp [hcond, mem_dictKeys_insert]
      · simp [hcond, mem_dictKeys_insert]
  · simp [hE, mem_dictKeys_insert]

theorem stepFlat_existing_eq (now : Nat) (E : List String) (apts : Apartments)
    (nids uids : List String) (f : Flat) (existing : ApartmentMetadata)
    (hfE : f.id ∈ E) (hlook : dictLookup f.id apts = some existing) :
    stepFlat now E (apts, nids, uids) f =
      if existing.data ≠ f ∨ existing.status = Status.removed then
        (dictInsert f.id ({ existing with last_seen := now, status := Status.active, data := f, last_updated := now }) apts, nids, uids ++ [f.id])
      else
        (dictInsert f.id ({ existing with last_seen := now, status := Status.active }) apts, nids, uids) := by
  unfold stepFlat
  simp only [hfE, if_true, hlook]

theorem stepFlat_new_eq (now : Nat) (E : List String) (apts : Apartments)
    (nids uids : List String) (f : Flat) (hfE : f.id ∉ E) :
    stepFlat now E (apts, nids, uids) f =
      (dictInsert f.id (freshEntry now f) apts, nids ++ [f.id], uids) := by
  unfold stepFlat
  simp only [hfE, if_false]
  rfl

/-! ## Whole-loop lemmas for the `for flat in flats` loop -/

theorem loop_lookup_untouched (now : Nat) (E : List String) (flats : List Flat)
    (acc : Apartments × List String × List String) (id : String)
    (h : id ∉ flats.map Flat.id) :
    dictLookup id (flats.foldl (stepFlat now E) acc).1 = dictLookup id acc.1 := by
  induction flats generalizing acc with
  | nil => rfl
  | cons f rest ih =>
    simp only [List.map_cons, List.mem_cons] at h
    push_neg at h
    rw [List.foldl_cons, ih _ h.2, stepFlat_lookup_ne now E acc f id h.1]

theorem loop_updated_mem_untouched (now : Nat) (E : List String)
    (flats : List Flat) (acc : Apartments × List String × List String)
    (id : String) (h : id ∉ flats.map Flat.id) :
    (id ∈ (flats.foldl (stepFlat now E) acc).2.2 ↔ id ∈ acc.2.2) := by
  induction flats generalizing acc with
  | nil => exact Iff.rfl
  | cons f rest ih =>
    simp only [List.map_cons, List.mem_cons] at h
    push_neg at h
    rw [List.foldl_cons, ih _ h.2, stepFlat_updated_mem_ne now E acc f id h.1]

theorem loop_updated_mem_not_existing (now : Nat) (E : List String)
    (flats : List Flat) (acc : Apartments × List String × List String)
    (id : String) (h : id ∉ E) :
    (id ∈ (flats.foldl (stepFlat now E) acc).2.2 ↔ id ∈ acc.2.2) := by
  induction flats generalizing acc with
  | nil => exact Iff.rfl
  | cons f rest ih =>
    rw [List.foldl_cons, ih _, stepFlat_updated_mem_not_existing now E acc f id h]

theorem loop_new_mem (now : Nat) (E : List String) (flats : List Flat)
    (acc : Apartments × List String × List String) (id : String) :
    (id ∈ (flats.foldl (stepFlat now E) acc).2.1 ↔
      id ∈ acc.2.1 ∨ (id ∈ flats.map Flat.id ∧ id ∉ E)) := by
  induction flats generalizing acc with
  | nil => simp
  | cons f rest ih =>
    rw [List.foldl_cons, ih, stepFlat_newIds]
    by_cases hE : f.id ∈ E
    · simp only [hE, if_true, List.map_cons, List.mem_cons]
      constructor
      · rintro (h | ⟨h1, h2⟩)
        · exact Or.inl h
        · exact Or.inr ⟨Or.inr h1, h2⟩
      · rintro (h | ⟨h1 | h1, h2⟩)
        · exact Or.inl h
        · exact absurd hE (h1 ▸ h2)
        · exact Or.inr ⟨h1, h2⟩
    · simp only [hE, if_false, List.map_cons, List.mem_cons, List.mem_append,
        List.mem_singleton, List.not_mem_nil, or_false]
      constructor
      · rintro ((h | h) | ⟨h1, h2⟩)
        · exact Or.inl h
        · exact Or.inr ⟨Or.inl h, by rw [h]; exact hE⟩
        · exact Or.inr ⟨Or.inr h1, h2⟩
      · rintro (h | ⟨h1 | h1, h2⟩)
        · exact Or.inl (Or.inl h)
        · exact Or.inl (Or.inr h1)
        · exact Or.inr ⟨h1, h2⟩

theorem loop_mem_keys (now : Nat) (E : List String) (flats : List Flat)
    (acc : Apartments × List String × List String) (id : String)
    (h : id ∈ dictKeys acc.1) :
    id ∈ dictKeys (flats.foldl (stepFlat now E) acc).1 := by
  induction flats generalizing acc with
  | nil => exact h
  | cons f rest ih =>
    rw [List.foldl_cons]
    exact ih _ (stepFlat_mem_keys now E acc f id h)

theorem loop_mem_keys_current (now : Nat) (E : List String) (flats : List Flat)
    (acc : Apartments × List String × List String)
    (hEsub : ∀ k ∈ E, k ∈ dictKeys acc.1) (f : Flat) (hf : f ∈ flats) :
    f.id ∈ dictKeys (flats.foldl (stepFlat now E) acc).1 := by
  induction flats generalizing acc with
  | nil => simp at hf
  | cons g rest ih =>
    rw [List.foldl_cons]
    rcases List.mem_cons.1 hf with hfg | hfr
    · subst hfg
      exact loop_mem_keys now E rest _ f.id (stepFlat_self_mem_keys now E acc f hEsub)
    · exact ih _ (fun k hk => stepFlat_mem_keys now E acc g k (hEsub k hk)) hfr

theorem not_mem_map_of_filter_eq_nil (flats : List Flat) (id : String)
    (h : flats.filter (fun g => decide (g.id = id)) = []) :
    id ∉ flats.map Flat.id := by
  intro hmem
  obtain ⟨g, hg, hgid⟩ := List.mem_map.1 hmem
  have := List.filter_eq_nil_iff.1 h g hg
  simp [hgid] at this

/-- Per-id outcome of the flats loop for an id in the frozen existing set
whose unique batch occurrence is `f` and whose stored entry is `m`: the
entry becomes `existingResult now m f`, and the id is recorded in
`updated_ids` exactly when the data differs or the entry was removed. -/
theorem loop_existing (now : Nat) (E : List String) (flats : List Flat)
    (acc : Apartments × List String × List String) (id : String) (f : Flat)
    (m : ApartmentMetadata)
    (hE : id ∈ E)
    (hocc : flats.filter (fun g => decide (g.id = id)) = [f])
    (hm : dictLookup id acc.1 = some m) :
    dictLookup id (flats.foldl (stepFlat now E) acc).1
        = some (existingResult now m f) ∧
      (id ∈ (flats.foldl (stepFlat now E) acc).2.2 ↔
        id ∈ acc.2.2 ∨ (m.data ≠ f ∨ m.status = Status.removed)) := by
  induction flats generalizing acc with
  | nil => simp at hocc
  | cons g rest ih =>
    rw [List.foldl_cons]
    by_cases hg : g.id = id
    · rw [List.filter_cons] at hocc
      simp only [hg, eq_self_iff_true, decide_True, if_true] at hocc
      rw [List.cons_eq_cons] at hocc
      obtain ⟨hgf, hrest⟩ := hocc
      subst hgf
      have hnotin : id ∉ rest.map Flat.id := not_mem_map_of_filter_eq_nil rest id hrest
      obtain ⟨apts, nids, uids⟩ := acc
      have hmg : dictLookup g.id apts = some m := by rw [hg]; exact hm
      have hgE : g.id ∈ E := by rw [hg]; exact hE
      rw [stepFlat_existing_eq now E apts nids uids g m hgE hmg]
      by_cases hcond : m.data ≠ g ∨ m.status = Status.removed
      · rw [if_pos hcond]
        constructor
        · rw [loop_lookup_untouched now E rest _ id hnotin]
          simp only
          rw [← hg, dictLookup_insert_self]
          unfold existingResult
          rw [if_pos hcond]
        · rw [loop_updated_mem_untouched now E rest _ id hnotin]
          simp [hg, hcond]
      · rw [if_neg hcond]
        constructor
        · rw [loop_lookup_untouched now E rest _ id hnotin]
          simp only
          rw [← hg, dictLookup_insert_self]
          unfold existingResult
          rw [if_neg hcond]
        · rw [loop_updated_mem_untouched now E rest _ id hnotin]
          simp [hcond]
    · rw [List.filter_cons] at hocc
      have hdec : decide (g.id = id) = false := by simp [hg]
      simp only [hdec, Bool.false_eq_true, if_false] at hocc
      have hne : id ≠ g.id := fun hh => hg hh.symm
      have hm' : dictLookup id (stepFlat now E acc g).1 = some m := by
        rw [stepFlat_lookup_ne now E acc g id hne]
        exact hm
      obtain ⟨h1, h2⟩ := ih _ hocc hm'
      refine ⟨h1, ?_⟩
      rw [h2, stepFlat_updated_mem_ne now E acc g id hne]

/-- Per-id outcome of the flats loop for an id not in the frozen existing
set: every occurrence takes the new-apartment branch, so the final entry is
the fresh one built from the last occurrence. -/
theorem loop_fresh (now : Nat) (E : List String) (flats : List Flat)
    (acc : Apartments × List String × List String) (id : String) (f : Flat)
    (hE : id ∉ E)
    (hlast : (flats.filter (fun g => decide (g.id = id))).getLast? = some f) :
    dictLookup id (flats.foldl (stepFlat now E) acc).1
      = some (freshEntry now f) := by
  induction flats generalizing acc with
  | nil => simp at hlast
  | cons g rest ih =>
    rw [List.foldl_cons]
    by_cases hg : g.id = id
    · have hstep : dictLookup id (stepFlat now E acc g).1
          = some (freshEntry now g) := by
        obtain ⟨apts, nids, uids⟩ := acc
        have hgE : g.id ∉ E := by rw [hg]; exact hE
        rw [stepFlat_new_eq now E apts nids uids g hgE]
        simp only
        rw [← hg]
        exact dictLookup_insert_self g.id (freshEntry now g) apts
      rw [List.filter_cons] at hlast
      simp only [hg, eq_self_iff_true, decide_True, if_true] at hlast
      by_cases hrest : rest.filter (fun g' => decide (g'.id = id)) = []
      · rw [hrest, List.getLast?_singleton] at hlast
        have hgf : g = f := by injection hlast
        subst hgf
        rw [loop_lookup_untouched now E rest _ id
          (not_mem_map_of_filter_eq_nil rest id hrest), hstep]
      · have hlast' : (rest.filter (fun g' => decide (g'.id = id))).getLast? = some f := by
          rcases hcs : rest.filter (fun g' => decide (g'.id = id)) with _ | ⟨x, xs⟩
          · exact absurd hcs hrest
          · rw [hcs] at hlast
            rw [List.getLast?_cons_cons] at hlast
            rw [hcs]
            exact hlast
        exact ih _ hlast'
    · rw [List.filter_cons] at hlast
      have hdec : decide (g.id = id) = false := by simp [hg]
      simp only [hdec, Bool.false_eq_true, if_false] at hlast
      exact ih _ hlast

/-- Number of times an id outside the frozen existing set is recorded in
`new_ids`: once per occurrence in the batch. -/
theorem loop_new_count (now : Nat) (E : List String) (flats : List Flat)
    (acc : Apartments × List String × List String) (id : String)
    (hE : id ∉ E) :
    (flats.foldl (stepFlat now E) acc).2.1.count id =
      acc.2.1.count id + (flats.filter (fun g => decide (g.id = id))).length := by
  induction flats generalizing acc with
  | nil => simp
  | cons g rest ih =>
    rw [List.foldl_cons, ih, stepFlat_newIds, List.filter_cons]
    by_cases hg : g.id = id
    · have hgE : g.id ∉ E := by rw [hg]; exact hE
      simp [hg, hE, List.count_append, List.count_singleton]
      omega
    · have hdec : decide (g.id = id) = false := by simp [hg]
      have hbeq : (g.id == id) = false := by simp [hg]
      by_cases hgE : g.id ∈ E
      · simp [hgE, hdec]
      · simp [hgE, hdec, hbeq, List.count_append, List.count_singleton]

/-! ## Lemmas for the missing-apartments loop -/

theorem markRemoved_lookup_ne (acc : Apartments × List String) (a id : String)
    (h : id ≠ a) :
    dictLookup id (markRemoved acc a).1 = dictLookup id acc.1 := by
  unfold markRemoved
  cases hm : dictLookup a acc.1 with
  | none => rfl
  | some apt =>
    by_cases hs : apt.status = Status.active
    · simp [hs, dictLookup_insert_ne _ _ _ _ h]
    · simp [hs]

theorem markRemoved_mem_ne (acc : Apartments × List String) (a id : String)
    (h : id ≠ a) : (id ∈ (markRemoved acc a).2 ↔ id ∈ acc.2) := by
  unfold markRemoved
  cases hm : dictLookup a acc.1 with
  | none => exact Iff.rfl
  | some apt =>
    by_cases hs : apt.status = Status.active
    · simp [hs, h]
    · simp [hs]

theorem markRemoved_mem_keys (acc : Apartments × List String) (a id : String)
    (h : id ∈ dictKeys acc.1) : id ∈ dictKeys (markRemoved acc a).1 := by
  unfold markRemoved
  cases hm : dictLookup a acc.1 with
  | none => exact h
  | some apt =>
    by_cases hs : apt.status = Status.active
    · simpa [hs, mem_dictKeys_insert] using Or.inr h
    · simpa [hs] using h

theorem rloop_untouched (L : List String) (acc : Apartments × List String)
    (id : String) (h : id ∉ L) :
    dictLookup id (L.foldl markRemoved acc).1 = dictLookup id acc.1 ∧
      (id ∈ (L.foldl markRemoved acc).2 ↔ id ∈ acc.2) := by
  induction L generalizing acc with
  | nil => exact ⟨rfl, Iff.rfl⟩
  | cons a rest ih =>
    simp only [List.mem_cons] at h
    push_neg at h
    rw [List.foldl_cons]
    obtain ⟨l1, l2⟩ := ih (markRemoved acc a) h.2
    exact ⟨by rw [l1, markRemoved_lookup_ne acc a id h.1],
           by rw [l2, markRemoved_mem_ne acc a id h.1]⟩

theorem rloop_mem_keys (L : List String) (acc : Apartments × List String)
    (id : String) (h : id ∈ dictKeys acc.1) :
    id ∈ dictKeys (L.foldl markRemoved acc).1 := by
  induction L generalizing acc with
  | nil => exact h
  | cons a rest ih =>
    rw [List.foldl_cons]
    exact ih _ (markRemoved_mem_keys acc a id h)

/-- Per-id outcome of the missing-apartments loop: an id in the iterated
list with stored entry `m` is marked `removed` and recorded in
`removed_ids` exactly when it is currently `active`. -/
theorem rloop_existing (L : List String) (acc : Apartments × List String)
    (id : String) (m : ApartmentMetadata) (hnodup : L.Nodup) (hL : id ∈ L)
    (hm : dictLookup id acc.1 = some m) :
    dictLookup id (L.foldl markRemoved acc).1 =
        some (if m.status = Status.active then { m with status := Status.removed } else m) ∧
      (id ∈ (L.foldl markRemoved acc).2 ↔ id ∈ acc.2 ∨ m.status = Status.active) := by
  induction L generalizing acc with
  | nil => simp at hL
  | cons a rest ih =>
    rw [List.foldl_cons]
    rcases List.mem_cons.1 hL with heq | hidr
    · subst heq
      have hnotin : id ∉ rest := (List.nodup_cons.1 hnodup).1
      obtain ⟨l1, l2⟩ := rloop_untouched rest (markRemoved acc id) id hnotin
      by_cases hs : m.status = Status.active
      · have hstep : markRemoved acc id =
            (dictInsert id ({ m with status := Status.removed }) acc.1, acc.2 ++ [id]) := by
          unfold markRemoved
          rw [hm]
          simp [hs]
        rw [hstep] at l1 l2 ⊢
        constructor
        · rw [l1]
          simp only
          rw [dictLookup_insert_self, if_pos hs]
        · rw [l2]
          simp [hs]
      · have hstep : markRemoved acc id = acc := by
          unfold markRemoved
          rw [hm]
          simp [hs]
        rw [hstep] at l1 l2 ⊢
        constructor
        · rw [l1, hm, if_neg hs]
        · rw [l2]
          simp [hs]
    · have hne : id ≠ a := fun hh => (List.nodup_cons.1 hnodup).1 (hh ▸ hidr)
      have hm' : dictLookup id (markRemoved acc a).1 = some m := by
        rw [markRemoved_lookup_ne acc a id hne]
        exact hm
      obtain ⟨h1, h2⟩ := ih (markRemoved acc a) (List.nodup_cons.1 hnodup).2 hidr hm'
      refine ⟨h1, ?_⟩
      rw [h2, markRemoved_mem_ne acc a id hne]

/-- `removed_ids` only ever receives ids from the iterated list. -/
theorem rloop_mem_sub (L : List String) (acc : Apartments × List String)
    (id : String) (h : id ∈ (L.foldl markRemoved acc).2) :
    id ∈ acc.2 ∨ id ∈ L := by
  induction L generalizing acc with
  | nil => exact Or.inl h
  | cons a rest ih =>
    rw [List.foldl_cons] at h
    rcases ih (markRemoved acc a) h with h1 | h1
    · by_cases hne : id = a
      · exact Or.inr (by simp [hne])
      · rcases (markRemoved_mem_ne acc a id hne).1 h1 with h2
        exact Or.inl h2
    · exact Or.inr (List.mem_cons_of_mem a h1)

/-- `updated_ids` only ever receives ids of flats in the batch. -/
theorem loop_updated_sub (now : Nat) (E : List String) (flats : List Flat)
    (acc : Apartments × List String × List String) (id : String)
    (h : id ∈ (flats.foldl (stepFlat now E) acc).2.2) :
    id ∈ acc.2.2 ∨ id ∈ flats.map Flat.id := by
  induction flats generalizing acc with
  | nil => exact Or.inl h
  | cons f rest ih =>
    rw [List.foldl_cons] at h
    rcases ih (stepFlat now E acc f) h with h1 | h1
    · rcases stepFlat_updated_sub now E acc f with h2 | ⟨h2, _⟩
      · rw [h2] at h1
        exact Or.inl h1
      · rw [h2] at h1
        rcases List.mem_append.1 h1 with h3 | h3
        · exact Or.inl h3
        · simp only [List.mem_singleton] at h3
          exact Or.inr (by simp [h3])
    · exact Or.inr (by simp [h1])

theorem mem_of_getLast?_eq (l : List α) (a : α) (h : l.getLast? = some a) :
    a ∈ l := by
  obtain ⟨hne, heq⟩ := List.mem_getLast?_eq_getLast (Option.mem_def.2 h)
  rw [heq]
  exact List.getLast_mem hne

/-! ## Reconciliation facts about `save_apartments` on a well-read store -/

theorem save_new_mem (now : Nat) (site : String) (d : SiteStorageData)
    (flats : List Flat) (mark : Bool) (id : String) :
    (id ∈ (save_apartments now site (some d) flats mark).new_ids ↔
      (id ∈ flats.map Flat.id ∧ id ∉ dictKeys d.apartments)) := by
  simp only [save_apartments, Option.getD_some]
  rw [loop_new_mem]
  simp

theorem save_updated_mem_existing (now : Nat) (site : String)
    (d : SiteStorageData) (flats : List Flat) (mark : Bool) (id : String)
    (f : Flat) (m : ApartmentMetadata)
    (hm : dictLookup id d.apartments = some m)
    (hocc : flats.filter (fun g => decide (g.id = id)) = [f]) :
    (id ∈ (save_apartments now site (some d) flats mark).updated_ids ↔
      (m.data ≠ f ∨ m.status = Status.removed)) := by
  have hE : id ∈ dictKeys d.apartments := dictLookup_mem_keys _ _ _ hm
  simp only [save_apartments, Option.getD_some]
  obtain ⟨_, h2⟩ := loop_existing now (dictKeys d.apartments) flats
    (d.apartments, [], []) id f m hE hocc hm
  rw [h2]
  simp

theorem save_updated_mem_fresh (now : Nat) (site : String)
    (d : SiteStorageData) (flats : List Flat) (mark : Bool) (id : String)
    (hnot : id ∉ dictKeys d.apartments) :
    id ∉ (save_apartments now site (some d) flats mark).updated_ids := by
  simp only [save_apartments, Option.getD_some]
  rw [loop_updated_mem_not_existing now (dictKeys d.apartments) flats
    (d.apartments, [], []) id hnot]
  simp

theorem save_removed_mem (now : Nat) (site : String) (d : SiteStorageData)
    (flats : List Flat) (id : String)
    (hnodup : (dictKeys d.apartments).Nodup) :
    (id ∈ (save_apartments now site (some d) flats true).removed_ids ↔
      ∃ m, dictLookup id d.apartments = some m ∧ m.status = Status.active ∧
        id ∉ flats.map Flat.id) := by
  simp only [save_apartments, Option.getD_some, if_true]
  constructor
  · intro h
    rcases rloop_mem_sub _ _ _ h with h1 | h1
    · simp at h1
    · obtain ⟨hE, hcur⟩ := List.mem_filter.1 h1
      have hcur' : id ∉ flats.map Flat.id := by simpa using hcur
      have hlook : dictLookup id
          (flats.foldl (stepFlat now (dictKeys d.apartments))
            (d.apartments, [], [])).1 = dictLookup id d.apartments := by
        exact loop_lookup_untouched now (dictKeys d.apartments) flats
          (d.apartments, [], []) id hcur'
      obtain ⟨m, hm⟩ := dictLookup_isSome_of_mem id d.apartments hE
      obtain ⟨_, h2⟩ := rloop_existing
        ((dictKeys d.apartments).filter (fun i => decide (i ∉ flats.map Flat.id)))
        ((flats.foldl (stepFlat now (dictKeys d.apartments)) (d.apartments, [], [])).1, [])
        id m (List.Nodup.filter _ hnodup) h1 (hlook.trans hm)
      rcases (h2.1 h) with h3 | h3
      · simp at h3
      · exact ⟨m, hm, h3, hcur'⟩
  · rintro ⟨m, hm, hact, hcur⟩
    have hE : id ∈ dictKeys d.apartments := dictLookup_mem_keys _ _ _ hm
    have hL : id ∈ (dictKeys d.apartments).filter
        (fun i => decide (i ∉ flats.map Flat.id)) :=
      List.mem_filter.2 ⟨hE, by simpa using hcur⟩
    have hlook : dictLookup id
        (flats.foldl (stepFlat now (dictKeys d.apartments))
          (d.apartments, [], [])).1 = some m := by
      rw [loop_lookup_untouched now (dictKeys d.apartments) flats
        (d.apartments, [], []) id hcur]
      exact hm
    obtain ⟨_, h2⟩ := rloop_existing
      ((dictKeys d.apartments).filter (fun i => decide (i ∉ flats.map Flat.id)))
      ((flats.foldl (stepFlat now (dictKeys d.apartments)) (d.apartments, [], [])).1, [])
      id m (List.Nodup.filter _ hnodup) hL hlook
    exact h2.2 (Or.inr hact)

theorem save_lookup_existing (now : Nat) (site : String) (d : SiteStorageData)
    (flats : List Flat) (mark : Bool) (id : String) (f : Flat)
    (m : ApartmentMetadata)
    (hm : dictLookup id d.apartments = some m)
    (hocc : flats.filter (fun g => decide (g.id = id)) = [f]) :
    dictLookup id (save_apartments now site (some d) flats mark).store.apartments
      = some (existingResult now m f) := by
  have hE : id ∈ dictKeys d.apartments := dictLookup_mem_keys _ _ _ hm
  have hf : f ∈ flats.filter (fun g => decide (g.id = id)) := by rw [hocc]; simp
  obtain ⟨hfmem, hfid⟩ := List.mem_filter.1 hf
  have hfid' : f.id = id := by simpa using hfid
  have hcur : id ∈ flats.map Flat.id := List.mem_map.2 ⟨f, hfmem, hfid'⟩
  simp only [save_apartments, Option.getD_some]
  obtain ⟨h1, _⟩ := loop_existing now (dictKeys d.apartments) flats
    (d.apartments, [], []) id f m hE hocc hm
  by_cases hmark : mark = true
  · simp only [hmark, if_true]
    have hnotL : id ∉ (dictKeys d.apartments).filter
        (fun i => decide (i ∉ flats.map Flat.id)) := by
      intro hmem
      obtain ⟨_, hc⟩ := List.mem_filter.1 hmem
      simp [hcur] at hc
    obtain ⟨l1, _⟩ := rloop_untouched _ _ id hnotL
    rw [l1]
    exact h1
  · have hmark' : mark = false := by
      cases mark
      · rfl
      · exact absurd rfl hmark
    simp only [hmark', Bool.false_eq_true, if_false]
    exact h1

theorem save_lookup_fresh (now : Nat) (site : String) (d : SiteStorageData)
    (flats : List Flat) (mark : Bool) (id : String) (f : Flat)
    (hnot : id ∉ dictKeys d.apartments)
    (hlast : (flats.filter (fun g => decide (g.id = id))).getLast? = some f) :
    dictLookup id (save_apartments now site (some d) flats mark).store.apartments
      = some (freshEntry now f) := by
  have hf : f ∈ flats.filter (fun g => decide (g.id = id)) :=
    mem_of_getLast?_eq _ f hlast
  obtain ⟨hfmem, hfid⟩ := List.mem_filter.1 hf
  have hfid' : f.id = id := by simpa using hfid
  have hcur : id ∈ flats.map Flat.id := List.mem_map.2 ⟨f, hfmem, hfid'⟩
  simp only [save_apartments, Option.getD_some]
  have h1 := loop_fresh now (dictKeys d.apartments) flats
    (d.apartments, [], []) id f hnot hlast
  by_cases hmark : mark = true
  · simp only [hmark, if_true]
    have hnotL : id ∉ (dictKeys d.apartments).filter
        (fun i => decide (i ∉ flats.map Flat.id)) := by
      intro hmem
      obtain ⟨_, hc⟩ := List.mem_filter.1 hmem
      simp [hcur] at hc
    obtain ⟨l1, _⟩ := rloop_untouched _ _ id hnotL
    rw [l1]
    exact h1
  · have hmark' : mark = false := by
      cases mark
      · rfl
      · exact absurd rfl hmark
    simp only [hmark', Bool.false_eq_true, if_false]
    exact h1

theorem save_lookup_missing (now : Nat) (site : String) (d : SiteStorageData)
    (flats : List Flat) (id : String) (m : ApartmentMetadata)
    (hnodup : (dictKeys d.apartments).Nodup)
    (hm : dictLookup id d.apartments = some m)
    (hnot : id ∉ flats.map Flat.id) :
    dictLookup id (save_apartments now site (some d) flats true).store.apartments
      = some (if m.status = Status.active then { m with status := Status.removed }
              else m) := by
  have hE : id ∈ dictKeys d.apartments := dictLookup_mem_keys _ _ _ hm
  simp only [save_apartments, Option.getD_some, if_true]
  have hL : id ∈ (dictKeys d.apartments).filter
      (fun i => decide (i ∉ flats.map Flat.id)) :=
    List.mem_filter.2 ⟨hE, by simpa using hnot⟩
  have hlook : dictLookup id
      (flats.foldl (stepFlat now (dictKeys d.apartments))
        (d.apartments, [], [])).1 = some m := by
    rw [loop_lookup_untouched now (dictKeys d.apartments) flats
      (d.apartments, [], []) id hnot]
    exact hm
  obtain ⟨h1, _⟩ := rloop_existing
    ((dictKeys d.apartments).filter (fun i => decide (i ∉ flats.map Flat.id)))
    ((flats.foldl (stepFlat now (dictKeys d.apartments)) (d.apartments, [], [])).1, [])
    id m (List.Nodup.filter _ hnodup) hL hlook
  exact h1

/-! ## Key-set preservation across `save_apartments` -/

theorem stepFlat_keys_nodup (now : Nat) (E : List String)
    (acc : Apartments × List String × List String) (f : Flat)
    (h : (dictKeys acc.1).Nodup) : (dictKeys (stepFlat now E acc f).1).Nodup := by
  obtain ⟨apts, nids, uids⟩ := acc
  unfold stepFlat
  by_cases hE : f.id ∈ E
  · simp only [hE, if_true]
    cases hm : dictLookup f.id apts with
    | none => exact h
    | some existing =>
      by_cases hcond : existing.data ≠ f ∨ existing.status = Status.removed
      · simpa [hcond] using dictKeys_insert_nodup _ _ _ h
      · simpa [hcond] using dictKeys_insert_nodup _ _ _ h
  · simpa [hE] using dictKeys_insert_nodup _ _ _ h

theorem loop_keys_nodup (now : Nat) (E : List String) (flats : List Flat)
    (acc : Apartments × List String × List String)
    (h : (dictKeys acc.1).Nodup) :
    (dictKeys (flats.foldl (stepFlat now E) acc).1).Nodup := by
  induction flats generalizing acc with
  | nil => exact h
  | cons f rest ih =>
    rw [List.foldl_cons]
    exact ih _ (stepFlat_keys_nodup now E acc f h)

theorem markRemoved_keys_nodup (acc : Apartments × List String) (a : String)
    (h : (dictKeys acc.1).Nodup) : (dictKeys (markRemoved acc a).1).Nodup := by
  unfold markRemoved
  cases hm : dictLookup a acc.1 with
  | none => exact h
  | some apt =>
    by_cases hs : apt.status = Status.active
    · simpa [hs] using dictKeys_insert_nodup _ _ _ h
    · simpa [hs] using h

theorem rloop_keys_nodup (L : List String) (acc : Apartments × List String)
    (h : (dictKeys acc.1).Nodup) :
    (dictKeys (L.foldl markRemoved acc).1).Nodup := by
  induction L generalizing acc with
  | nil => exact h
  | cons a rest ih =>
    rw [List.foldl_cons]
    exact ih _ (markRemoved_keys_nodup acc a h)

theorem save_keys_nodup (now : Nat) (site : String) (d : SiteStorageData)
    (flats : List Flat) (mark : Bool)
    (h : (dictKeys d.apartments).Nodup) :
    (dictKeys (save_apartments now site (some d) flats mark).store.apartments).Nodup := by
  simp only [save_apartments, Option.getD_some]
  by_cases hmark : mark = true
  · simp only [hmark, if_true]
    exact rloop_keys_nodup _ _ (loop_keys_nodup now _ flats (d.apartments, [], []) h)
  · have hmark' : mark = false := by
      cases mark
      · rfl
      · exact absurd rfl hmark
    simp only [hmark', Bool.false_eq_true, if_false]
    exact loop_keys_nodup now _ flats (d.apartments, [], []) h

theorem stepFlat_keys_mem_iff (now : Nat) (E : List String)
    (acc : Apartments × List String × List String) (f : Flat) (id : String)
    (hEsub : ∀ k ∈ E, k ∈ dictKeys acc.1) :
    (id ∈ dictKeys (stepFlat now E acc f).1 ↔ id = f.id ∨ id ∈ dictKeys acc.1) := by
  obtain ⟨apts, nids, uids⟩ := acc
  unfold stepFlat
  by_cases hE : f.id ∈ E
  · simp only [hE, if_true]
    cases hm : dictLookup f.id apts with
    | none =>
      obtain ⟨v, hv⟩ := dictLookup_isSome_of_mem _ _ (hEsub f.id hE)
      rw [hv] at hm
      exact absurd hm (by simp)
    | some existing =>
      have hfk : f.id ∈ dictKeys apts := dictLookup_mem_keys _ _ _ hm
      by_cases hcond : existing.data ≠ f ∨ existing.status = Status.removed
      · simp only [hcond, if_true]
        rw [mem_dictKeys_insert]
      · simp only [hcond, if_false]
        rw [mem_dictKeys_insert]
  · simp only [hE, if_false]
    rw [mem_dictKeys_insert]

theorem loop_keys_mem_iff (now : Nat) (E : List String) (flats : List Flat)
    (acc : Apartments × List String × List String) (id : String)
    (hEsub : ∀ k ∈ E, k ∈ dictKeys acc.1) :
    (id ∈ dictKeys (flats.foldl (stepFlat now E) acc).1 ↔
      id ∈ flats.map Flat.id ∨ id ∈ dictKeys acc.1) := by
  induction flats generalizing acc with
  | nil => simp
  | cons f rest ih =>
    rw [List.foldl_cons,
      ih _ (fun k hk => stepFlat_mem_keys now E acc f k (hEsub k hk)),
      stepFlat_keys_mem_iff now E acc f id hEsub]
    simp only [List.map_cons, List.mem_cons]
    tauto

theorem markRemoved_keys_mem_iff (acc : Apartments × List String) (a id : String) :
    (id ∈ dictKeys (markRemoved acc a).1 ↔ id ∈ dictKeys acc.1) := by
  unfold markRemoved
  cases hm : dictLookup a acc.1 with
  | none => exact Iff.rfl
  | some apt =>
    have hak : a ∈ dictKeys acc.1 := dictLookup_mem_keys _ _ _ hm
    by_cases hs : apt.status = Status.active
    · simp only [hs, if_true]
      rw [mem_dictKeys_insert]
      constructor
      · rintro (h | h)
        · exact h ▸ hak
        · exact h
      · exact Or.inr
    · simp [hs]

theorem rloop_keys_mem_iff (L : List String) (acc : Apartments × List String)
    (id : String) :
    (id ∈ dictKeys (L.foldl markRemoved acc).1 ↔ id ∈ dictKeys acc.1) := by
  induction L generalizing acc with
  | nil => exact Iff.rfl
  | cons a rest ih =>
    rw [List.foldl_cons, ih, markRemoved_keys_mem_iff]

theorem save_keys_mem_iff (now : Nat) (site : String) (d : SiteStorageData)
    (flats : List Flat) (mark : Bool) (id : String) :
    (id ∈ dictKeys (save_apartments now site (some d) flats mark).store.apartments ↔
      id ∈ flats.map Flat.id ∨ id ∈ dictKeys d.apartments) := by
  simp only [save_apartments, Option.getD_some]
  by_cases hmark : mark = true
  · simp only [hmark, if_true]
    rw [rloop_keys_mem_iff, loop_keys_mem_iff now _ flats (d.apartments, [], []) id
      (fun k hk => hk)]
  · have hmark' : mark = false := by
      cases mark
      · rfl
      · exact absurd rfl hmark
    simp only [hmark', Bool.false_eq_true, if_false]
    rw [loop_keys_mem_iff now _ flats (d.apartments, [], []) id (fun k hk => hk)]

theorem save_updated_sub (now : Nat) (site : String) (d : SiteStorageData)
    (flats : List Flat) (mark : Bool) (id : String)
    (h : id ∈ (save_apartments now site (some d) flats mark).updated_ids) :
    id ∈ flats.map Flat.id := by
  simp only [save_apartments, Option.getD_some] at h
  rcases loop_updated_sub now _ flats (d.apartments, [], []) id h with h1 | h1
  · simp at h1
  · exact h1

theorem filter_id_singleton_of_nodup (flats : List Flat) (f : Flat)
    (hnodup : (flats.map Flat.id).Nodup) (hf : f ∈ flats) :
    flats.filter (fun g => decide (g.id = f.id)) = [f] := by
  induction flats with
  | nil => simp at hf
  | cons g rest ih =>
    rw [List.filter_cons]
    simp only [List.map_cons, List.nodup_cons] at hnodup
    rcases List.mem_cons.1 hf with heq | hfr
    · subst heq
      simp only [eq_self_iff_true, decide_True, if_true]
      have hrest : rest.filter (fun g' => decide (g'.id = f.id)) = [] := by
        rw [List.filter_eq_nil_iff]
        intro g' hg'
        have : g'.id ∈ rest.map Flat.id := List.mem_map.2 ⟨g', hg', rfl⟩
        simp only [decide_eq_true_eq]
        intro hcontra
        exact hnodup.1 (hcontra ▸ this)
      rw [hrest]
    · have hgne : g.id ≠ f.id := by
        intro hcontra
        exact hnodup.1 (hcontra ▸ List.mem_map.2 ⟨f, hfr, rfl⟩)
      have hdec : decide (g.id = f.id) = false := by simp [hgne]
      rw [hdec]
      simp only [Bool.false_eq_true, if_false]
      exact ih hnodup.2 hfr

/-! ## Change-detector lemmas -/

theorem compareStep_foldl (cfg : ChangeDetectorConfig) (old_data new_data : Flat)
    (fields : List String) (acc : List (String × (Option Value × Option Value))) :
    fields.foldl (compareStep cfg old_data new_data) acc =
      acc ++ (fields.filter (fun fl =>
          decide (fl ∉ cfg.ignore_fields) &&
          decide (old_data.dumpGet fl ≠ new_data.dumpGet fl))).map
        (fun fl => (fl, (old_data.dumpGet fl, new_data.dumpGet fl))) := by
  induction fields generalizing acc with
  | nil => simp
  | cons fl rest ih =>
    rw [List.foldl_cons, ih, List.filter_cons]
    by_cases h1 : fl ∈ cfg.ignore_fields
    · simp [compareStep, h1]
    · by_cases h2 : old_data.dumpGet fl ≠ new_data.dumpGet fl
      · simp [compareStep, h1, h2]
      · simp [compareStep, h1, h2]

/-- What "monitored data differs" means: `_compare_fields` returns a
non-empty diff iff some monitored, non-ignored field has different values
in the two snapshots. -/
theorem compare_fields_ne_nil_iff (cfg : ChangeDetectorConfig)
    (old_data new_data : Flat) :
    (compare_fields cfg old_data new_data ≠ [] ↔
      ∃ fl ∈ cfg.monitored_fields, fl ∉ cfg.ignore_fields ∧
        old_data.dumpGet fl ≠ new_data.dumpGet fl) := by
  rw [compare_fields, compareStep_foldl]
  simp only [List.nil_append, ne_eq, List.map_eq_nil_iff, List.filter_eq_nil_iff,
    Bool.and_eq_true, decide_eq_true_eq, not_forall]
  constructor
  · rintro ⟨fl, hmem, hp⟩
    rw [not_not] at hp
    exact ⟨fl, hmem, hp⟩
  · rintro ⟨fl, hmem, hp⟩
    exact ⟨fl, hmem, by rw [not_not]; exact hp⟩

theorem dictLookup_storedData (apts : Apartments) (id : String) :
    dictLookup id (storedData apts) =
      (dictLookup id apts).map ApartmentMetadata.data := by
  induction apts with
  | nil => rfl
  | cons p rest ih =>
    by_cases hp : p.1 = id
    · simp [storedData, dictLookup, hp]
    · simpa [storedData, dictLookup, hp] using ih

theorem indexById_untouched (id : String) :
    ∀ (flats : List Flat) (init : List (String × Flat)),
      (∀ g ∈ flats, g.id ≠ id) →
      dictLookup id (flats.foldl (fun d g => dictInsert g.id g d) init)
        = dictLookup id init
  | [], _, _ => rfl
  | x :: xs, init, hno => by
    rw [List.foldl_cons,
      indexById_untouched id xs _ (fun g hg => hno g (List.mem_cons_of_mem x hg)),
      dictLookup_insert_ne _ _ _ _ (fun hh => hno x (List.mem_cons_self x xs) hh.symm)]

theorem indexById_aux (id : String) (f : Flat) :
    ∀ (flats : List Flat) (init : List (String × Flat)),
      (flats.filter (fun g => decide (g.id = id))).getLast? = some f →
      dictLookup id (flats.foldl (fun d g => dictInsert g.id g d) init) = some f
  | [], _, hlast => by simp at hlast
  | g :: rest, init, hlast => by
    rw [List.foldl_cons]
    by_cases hg : g.id = id
    · rw [List.filter_cons] at hlast
      simp only [hg, eq_self_iff_true, decide_True, if_true] at hlast
      by_cases hrest : rest.filter (fun g' => decide (g'.id = id)) = []
      · rw [hrest, List.getLast?_singleton] at hlast
        have hgf : g = f := by injection hlast
        subst hgf
        rw [indexById_untouched id rest _ (fun g' hg' => by
          have := List.filter_eq_nil_iff.1 hrest g' hg'
          simpa using this)]
        rw [← hg]
        exact dictLookup_insert_self g.id g init
      · have hlast' : (rest.filter (fun g' => decide (g'.id = id))).getLast? = some f := by
          rcases hcs : rest.filter (fun g' => decide (g'.id = id)) with _ | ⟨x, xs⟩
          · exact absurd hcs hrest
          · rw [hcs] at hlast
            rw [List.getLast?_cons_cons] at hlast
            rw [hcs]
            exact hlast
        exact indexById_aux id f rest _ hlast'
    · rw [List.filter_cons] at hlast
      have hdec : decide (g.id = id) = false := by simp [hg]
      simp only [hdec, Bool.false_eq_true, if_false] at hlast
      exact indexById_aux id f rest _ hlast

theorem indexById_lookup (flats : List Flat) (id : String) (f : Flat)
    (hlast : (flats.filter (fun g => decide (g.id = id))).getLast? = some f) :
    dictLookup id (indexById flats) = some f :=
  indexById_aux id f flats [] hlast

/-- An `updated` change for a given id exists in `detect_changes` output iff
the id is in both snapshots and its monitored comparison is non-empty. -/
theorem detect_updated_mem (cfg : ChangeDetectorConfig) (now : Nat)
    (old_apartments : List (String × Flat)) (new_apartments : List Flat)
    (id : String) :
    ((∃ c ∈ detect_changes cfg now old_apartments new_apartments,
        c.apartment_id = id ∧ c.change_type = ChangeType.updated) ↔
      ∃ od nf, dictLookup id old_apartments = some od ∧
        dictLookup id (indexById new_apartments) = some nf ∧
        compare_fields cfg od nf ≠ []) := by
  unfold detect_changes
  constructor
  · rintro ⟨c, hc, hid, hty⟩
    rcases List.mem_append.1 hc with hc0 | hc2
    rotate_left
    · obtain ⟨i, _, hmk⟩ := List.mem_filterMap.1 hc2
      cases hlo : dictLookup i old_apartments with
      | none => rw [hlo] at hmk; simp at hmk
      | some od =>
        rw [hlo] at hmk
        rw [Option.map_some'] at hmk
        injection hmk with hmk
        rw [← hmk] at hty
        exact ChangeType.noConfusion
          (show ChangeType.removed = ChangeType.updated from hty)
    rcases List.mem_append.1 hc0 with hc1 | hc2
    · obtain ⟨i, _, hmk⟩ := List.mem_filterMap.1 hc1
      cases hl : dictLookup i (indexById new_apartments) with
      | none => rw [hl] at hmk; simp at hmk
      | some g =>
        rw [hl] at hmk
        rw [Option.map_some'] at hmk
        injection hmk with hmk
        rw [← hmk] at hty
        exact ChangeType.noConfusion
          (show ChangeType.new = ChangeType.updated from hty)
    · obtain ⟨i, hi, hmk⟩ := List.mem_filterMap.1 hc2
      cases hlo : dictLookup i old_apartments with
      | none => rw [hlo] at hmk; simp at hmk
      | some od =>
        cases hln : dictLookup i (indexById new_apartments) with
        | none => rw [hlo, hln] at hmk; simp at hmk
        | some nf =>
          rw [hlo, hln] at hmk
          simp only at hmk
          by_cases hne : compare_fields cfg od nf ≠ []
          · rw [if_pos hne] at hmk
            injection hmk with hmk
            have hiid : i = id := by rw [← hmk] at hid; exact hid
            subst hiid
            exact ⟨od, nf, hlo, hln, hne⟩
          · rw [if_neg hne] at hmk
            simp at hmk
  · rintro ⟨od, nf, hod, hnf, hne⟩
    refine ⟨{ change_type := ChangeType.updated, apartment_id := id,
              timestamp := now, changes := compare_fields cfg od nf,
              apartment_data := nf }, ?_, rfl, rfl⟩
    apply List.mem_append.2
    refine Or.inl (List.mem_append.2 (Or.inr ?_))
    apply List.mem_filterMap.2
    refine ⟨id, ?_, ?_⟩
    · apply List.mem_filter.2
      refine ⟨dictLookup_mem_keys _ _ _ hod, ?_⟩
      simp only [decide_eq_true_eq]
      exact dictLookup_mem_keys _ _ _ hnf
    · rw [hod, hnf]
      simp only
      rw [if_pos hne]

theorem save_new_count (now : Nat) (site : String) (d : SiteStorageData)
    (flats : List Flat) (mark : Bool) (id : String)
    (hnot : id ∉ dictKeys d.apartments) :
    (save_apartments now site (some d) flats mark).new_ids.count id =
      (flats.filter (fun g => decide (g.id = id))).length := by
  simp only [save_apartments, Option.getD_some]
  rw [loop_new_count now _ flats (d.apartments, [], []) id hnot]
  simp

/-! ## Claim C1 -/

/-- C1 counterexample: a stored active apartment rescraped with only its
(unmonitored) `found_at` changed IS reported in `updated_ids` — the store
compares the full serialized dict, not the monitored fields — while its
monitored comparison is empty and no `updated` change event is emitted,
refuting the claimed iff between `updated_ids` membership and a monitored
difference. -/
theorem save_updated_without_monitored_diff :
    "a1" ∈ (save_apartments 1 "siteA" (some storeA) [flatAts] true).updated_ids ∧
      compare_fields {} metaA.data flatAts = [] ∧
      detect_changes {} 1 (storedData storeA.apartments) [flatAts] = [] := by
  refine ⟨by decide, by decide, by decide⟩

/-- C1 (amended): for an id present in both the stored document and the
batch (with a unique batch occurrence `f` and stored entry `m`),
`save_apartments` reports it in `updated_ids` iff the full serialized data
differs or the record was `removed`, while `detect_changes` yields an
`updated` ApartmentChange for it iff some monitored, non-ignored field
differs between the stored snapshot and the new serialized flat. -/
theorem save_updated_and_change_iff (now now2 : Nat) (site : String)
    (d : SiteStorageData) (flats : List Flat) (mark : Bool)
    (cfg : ChangeDetectorConfig) (id : String) (f : Flat)
    (m : ApartmentMetadata)
    (hm : dictLookup id d.apartments = some m)
    (hocc : flats.filter (fun g => decide (g.id = id)) = [f]) :
    ((id ∈ (save_apartments now site (some d) flats mark).updated_ids ↔
      (m.data ≠ f ∨ m.status = Status.removed)) ∧
    ((∃ c ∈ detect_changes cfg now2 (storedData d.apartments) flats,
        c.apartment_id = id ∧ c.change_type = ChangeType.updated) ↔
      ∃ fl ∈ cfg.monitored_fields, fl ∉ cfg.ignore_fields ∧
        m.data.dumpGet fl ≠ f.dumpGet fl)) := by
  constructor
  · exact save_updated_mem_existing now site d flats mark id f m hm hocc
  · rw [detect_updated_mem]
    have hod : dictLookup id (storedData d.apartments) = some m.data := by
      rw [dictLookup_storedData, hm]
      rfl
    have hnf : dictLookup id (indexById flats) = some f :=
      indexById_lookup flats id f (by rw [hocc]; rfl)
    constructor
    · rintro ⟨od, nf, hod', hnf', hne⟩
      rw [hod] at hod'
      rw [hnf] at hnf'
      injection hod' with hod'
      injection hnf' with hnf'
      rw [← hod', ← hnf'] at hne
      exact (compare_fields_ne_nil_iff cfg m.data f).1 hne
    · intro hex
      exact ⟨m.data, f, hod, hnf,
        (compare_fields_ne_nil_iff cfg m.data f).2 hex⟩

/-- C1 amended-claim witness: concrete store and batch with a monitored
(title) change. -/
theorem save_updated_and_change_iff_witness :
    (("a1" ∈ (save_apartments 3 "siteA" (some storeA) [flatA2] true).updated_ids ↔
      (metaA.data ≠ flatA2 ∨ metaA.status = Status.removed)) ∧
    ((∃ c ∈ detect_changes {} 3 (storedData storeA.apartments) [flatA2],
        c.apartment_id = "a1" ∧ c.change_type = ChangeType.updated) ↔
      ∃ fl ∈ ({} : ChangeDetectorConfig).monitored_fields,
        fl ∉ ({} : ChangeDetectorConfig).ignore_fields ∧
        metaA.data.dumpGet fl ≠ flatA2.dumpGet fl)) :=
  save_updated_and_change_iff 3 3 "siteA" storeA [flatA2] true {} "a1" flatA2
    metaA (by decide) (by decide)

/-! ## Claim C2 -/

/-- C2 counterexample: an apartment already stored as `removed` that does
not reappear in the batch is in `old_ids - new_ids` but is NOT reported in
`removed_ids` (only currently-active apartments are), refuting
`removed_ids = old_ids - new_ids`. -/
theorem removed_not_in_removed_ids :
    "a1" ∈ dictKeys storeR.apartments ∧
      (save_apartments 1 "siteA" (some storeR) [] true).removed_ids = [] := by
  refine ⟨by decide, by decide⟩

/-- C2 (amended): with `mark_missing_as_removed=true`, the returned
`new_ids` are (as a set) exactly `new_ids - old_ids`, and the returned
`removed_ids` are exactly the ids of `old_ids - new_ids` whose stored status
is still `active`. -/
theorem reconciliation_new_removed_sets (now : Nat) (site : String)
    (d : SiteStorageData) (flats : List Flat) (id : String)
    (hnodup : (dictKeys d.apartments).Nodup) :
    ((id ∈ (save_apartments now site (some d) flats true).new_ids ↔
      id ∈ flats.map Flat.id ∧ id ∉ dictKeys d.apartments) ∧
    (id ∈ (save_apartments now site (some d) flats true).removed_ids ↔
      ∃ m, dictLookup id d.apartments = some m ∧ m.status = Status.active ∧
        id ∉ flats.map Flat.id)) :=
  ⟨save_new_mem now site d flats true id,
   save_removed_mem now site d flats id hnodup⟩

/-- C2 amended-claim witness: a batch with one new flat against a store
holding one active apartment that disappears. -/
theorem reconciliation_new_removed_sets_witness :
    (("b1" ∈ (save_apartments 4 "siteA" (some storeA)
        [{ flatA with id := "b1" }] true).new_ids ↔
      "b1" ∈ [{ flatA with id := "b1" }].map Flat.id ∧
        "b1" ∉ dictKeys storeA.apartments) ∧
    ("a1" ∈ (save_apartments 4 "siteA" (some storeA)
        [{ flatA with id := "b1" }] true).removed_ids ↔
      ∃ m, dictLookup "a1" storeA.apartments = some m ∧
        m.status = Status.active ∧
        "a1" ∉ [{ flatA with id := "b1" }].map Flat.id)) :=
  ⟨(reconciliation_new_removed_sets 4 "siteA" storeA
      [{ flatA with id := "b1" }] "b1" (by decide)).1,
   (reconciliation_new_removed_sets 4 "siteA" storeA
      [{ flatA with id := "b1" }] "a1" (by decide)).2⟩

/-! ## Claim C5 -/

/-- C5: a stored `removed` apartment resubmitted with identical data is
reported in `updated_ids` (not `new_ids`), its status returns to `active`,
and `last_updated` (and `last_seen`) are set to now. -/
theorem removed_reactivation (now : Nat) (site : String)
    (d : SiteStorageData) (flats : List Flat) (mark : Bool) (id : String)
    (m : ApartmentMetadata)
    (hm : dictLookup id d.apartments = some m)
    (hrm : m.status = Status.removed)
    (hocc : flats.filter (fun g => decide (g.id = id)) = [m.data]) :
    (id ∈ (save_apartments now site (some d) flats mark).updated_ids ∧
      id ∉ (save_apartments now site (some d) flats mark).new_ids ∧
      dictLookup id (save_apartments now site (some d) flats mark).store.apartments =
        some ({ m with status := Status.active, last_seen := now, last_updated := now })) := by
  refine ⟨?_, ?_, ?_⟩
  · exact (save_updated_mem_existing now site d flats mark id m.data m hm hocc).2
      (Or.inr hrm)
  · intro h
    exact ((save_new_mem now site d flats mark id).1 h).2
      (dictLookup_mem_keys _ _ _ hm)
  · rw [save_lookup_existing now site d flats mark id m.data m hm hocc]
    unfold existingResult
    rw [if_pos (Or.inr hrm)]

/-- C5 witness: the removed `flatA` resubmitted unchanged. -/
theorem removed_reactivation_witness :
    ("a1" ∈ (save_apartments 7 "siteA" (some storeR) [flatA] true).updated_ids ∧
      "a1" ∉ (save_apartments 7 "siteA" (some storeR) [flatA] true).new_ids ∧
      dictLookup "a1" (save_apartments 7 "siteA" (some storeR) [flatA] true).store.apartments =
        some ({ metaR with status := Status.active, last_seen := 7, last_updated := 7 })) :=
  removed_reactivation 7 "siteA" storeR [flatA] true "a1" metaR
    (by decide) (by decide) (by decide)

/-! ## Claim C6 -/

/-- C6: across any sequence of `save_apartments` calls, the stored id set
never shrinks — an id once present in the site document is still present
after every subsequent call (no operation deletes a record). -/
theorem store_never_deletes (batches : List (Nat × List Flat × Bool))
    (d : SiteStorageData) (id : String) (h : id ∈ dictKeys d.apartments) :
    id ∈ dictKeys
      ((batches.foldl (fun st b =>
        (save_apartments b.1 st.site (some st) b.2.1 b.2.2).store) d).apartments) := by
  induction batches generalizing d with
  | nil => exact h
  | cons b rest ih =>
    rw [List.foldl_cons]
    exact ih _ ((save_keys_mem_iff b.1 d.site d b.2.1 b.2.2 id).2 (Or.inr h))

/-- C6 witness: the id survives an empty rescrape (which removes it
logically) and a later unrelated scrape. -/
theorem store_never_deletes_witness :
    "a1" ∈ dictKeys
      (([( (1 : Nat), ([] : List Flat), true ),
         ( (2 : Nat), [flatA2], false )].foldl (fun st b =>
        (save_apartments b.1 st.site (some st) b.2.1 b.2.2).store) storeA).apartments) :=
  store_never_deletes
    [((1 : Nat), ([] : List Flat), true), ((2 : Nat), [flatA2], false)]
    storeA "a1" (by decide)

/-! ## Claim C10 -/

/-- C10 counterexample: two flats with the same unstored id but different
data in one batch are BOTH routed through the new-apartment branch (the
membership test uses the id set frozen before the loop), so the id appears
twice in `new_ids` and never in `updated_ids`; the stored data is that of
the later flat.  This refutes the claim that the id is reported in both
`new_ids` and `updated_ids`. -/
theorem dup_batch_new_twice :
    ((save_apartments 1 "siteA" (some storeEmpty) [flatA, flatA2] true).new_ids
        = ["a1", "a1"] ∧
      (save_apartments 1 "siteA" (some storeEmpty) [flatA, flatA2] true).updated_ids
        = [] ∧
      dictLookup "a1"
        (save_apartments 1 "siteA" (some storeEmpty) [flatA, flatA2] true).store.apartments
        = some (freshEntry 1 flatA2)) := by
  refine ⟨by decide, by decide, by decide⟩

/-- C10 (amended): if the batch contains exactly two flats `f1, f2` (in that
order) with the same id not yet stored, the id is reported twice in
`new_ids` and not at all in `updated_ids`, and the stored entry after the
call is the fresh entry built from the later flat `f2` (last occurrence
wins). -/
theorem dup_new_ids_last_wins (now : Nat) (site : String)
    (d : SiteStorageData) (flats : List Flat) (mark : Bool) (id : String)
    (f1 f2 : Flat)
    (hnot : id ∉ dictKeys d.apartments)
    (hocc : flats.filter (fun g => decide (g.id = id)) = [f1, f2]) :
    ((save_apartments now site (some d) flats mark).new_ids.count id = 2 ∧
      id ∉ (save_apartments now site (some d) flats mark).updated_ids ∧
      dictLookup id (save_apartments now site (some d) flats mark).store.apartments =
        some (freshEntry now f2)) := by
  refine ⟨?_, save_updated_mem_fresh now site d flats mark id hnot, ?_⟩
  · rw [save_new_count now site d flats mark id hnot, hocc]
    rfl
  · exact save_lookup_fresh now site d flats mark id f2 hnot
      (by rw [hocc, List.getLast?_cons_cons, List.getLast?_singleton])

/-- C10 amended-claim witness at the concrete duplicate batch. -/
theorem dup_new_ids_last_wins_witness :
    ((save_apartments 1 "siteA" (some storeEmpty) [flatA, flatA2] true).new_ids.count "a1" = 2 ∧
      "a1" ∉ (save_apartments 1 "siteA" (some storeEmpty) [flatA, flatA2] true).updated_ids ∧
      dictLookup "a1"
        (save_apartments 1 "siteA" (some storeEmpty) [flatA, flatA2] true).store.apartments =
        some (freshEntry 1 flatA2)) :=
  dup_new_ids_last_wins 1 "siteA" storeEmpty [flatA, flatA2] true "a1"
    flatA flatA2 (by decide) (by decide)

/-! ## Claim C4 -/

/-- After a save, every flat of the batch (with batch-unique ids) is stored
with exactly its data and `active` status. -/
theorem save_current_entry (now : Nat) (site : String) (d : SiteStorageData)
    (flats : List Flat) (mark : Bool) (f : Flat)
    (hids : (flats.map Flat.id).Nodup) (hf : f ∈ flats) :
    ∃ m1, dictLookup f.id (save_apartments now site (some d) flats mark).store.apartments
        = some m1 ∧ m1.data = f ∧ m1.status = Status.active := by
  have hocc := filter_id_singleton_of_nodup flats f hids hf
  by_cases hk : f.id ∈ dictKeys d.apartments
  · obtain ⟨m0, hm0⟩ := dictLookup_isSome_of_mem _ _ hk
    exact ⟨existingResult now m0 f,
      save_lookup_existing now site d flats mark f.id f m0 hm0 hocc,
      existingResult_data now m0 f, existingResult_status now m0 f⟩
  · exact ⟨freshEntry now f,
      save_lookup_fresh now site d flats mark f.id f hk
        (by rw [hocc, List.getLast?_singleton]),
      rfl, rfl⟩

/-- After a save with `mark_missing_as_removed=true`, every stored id that
was not in the batch has status `removed`. -/
theorem save_missing_status (now : Nat) (site : String) (d : SiteStorageData)
    (flats : List Flat) (id : String) (m1 : ApartmentMetadata)
    (hnodup : (dictKeys d.apartments).Nodup)
    (hnot : id ∉ flats.map Flat.id)
    (hm1 : dictLookup id (save_apartments now site (some d) flats true).store.apartments
      = some m1) :
    m1.status = Status.removed := by
  have hk : id ∈ dictKeys (save_apartments now site (some d) flats true).store.apartments :=
    dictLookup_mem_keys _ _ _ hm1
  rw [save_keys_mem_iff] at hk
  rcases hk with hk | hk
  · exact absurd hk hnot
  · obtain ⟨m0, hm0⟩ := dictLookup_isSome_of_mem _ _ hk
    have hl := save_lookup_missing now site d flats id m0 hnodup hm0 hnot
    rw [hl] at hm1
    injection hm1 with hm1
    subst hm1
    by_cases hs : m0.status = Status.active
    · rw [if_pos hs]
    · rw [if_neg hs]
      cases hcs : m0.status with
      | active => exact absurd hcs hs
      | removed => rfl

/-- C4 counterexample: with a batch containing two flats sharing an id but
with different data, re-saving the unmodified batch is NOT idempotent — the
second call reports the id twice in `updated_ids` (the two occurrences keep
flipping the stored data back and forth). -/
theorem resave_duplicate_not_idempotent :
    (save_apartments 2 "siteA"
      (some (save_apartments 1 "siteA" (some storeEmpty) [flatA, flatA2] true).store)
      [flatA, flatA2] true).updated_ids = ["a1", "a1"] := by
  decide

/-- C4 (amended): for a batch whose flats have pairwise-distinct ids,
re-saving the unmodified batch returns empty `new_ids`, `updated_ids` and
`removed_ids`, stamps `last_scrape` with the new time, and changes no stored
field other than `last_seen`. -/
theorem resave_unchanged_idempotent (now1 now2 : Nat) (site : String)
    (d : SiteStorageData) (flats : List Flat)
    (hnodup : (dictKeys d.apartments).Nodup)
    (hids : (flats.map Flat.id).Nodup) :
    ((save_apartments now2 site
        (some (save_apartments now1 site (some d) flats true).store)
        flats true).new_ids = [] ∧
      (save_apartments now2 site
        (some (save_apartments now1 site (some d) flats true).store)
        flats true).updated_ids = [] ∧
      (save_apartments now2 site
        (some (save_apartments now1 site (some d) flats true).store)
        flats true).removed_ids = [] ∧
      (save_apartments now2 site
        (some (save_apartments now1 site (some d) flats true).store)
        flats true).store.last_scrape = now2 ∧
      (∀ id m2, dictLookup id (save_apartments now2 site
          (some (save_apartments now1 site (some d) flats true).store)
          flats true).store.apartments = some m2 →
        ∃ m1, dictLookup id
            (save_apartments now1 site (some d) flats true).store.apartments
            = some m1 ∧
          m2.status = m1.status ∧ m2.data = m1.data ∧
          m2.first_seen = m1.first_seen ∧ m2.last_updated = m1.last_updated)) := by
  have hnodup1 : (dictKeys (save_apartments now1 site (some d) flats true).store.apartments).Nodup :=
    save_keys_nodup now1 site d flats true hnodup
  have hcursub : ∀ i ∈ flats.map Flat.id,
      i ∈ dictKeys (save_apartments now1 site (some d) flats true).store.apartments :=
    fun i hi => (save_keys_mem_iff now1 site d flats true i).2 (Or.inl hi)
  refine ⟨?_, ?_, ?_, rfl, ?_⟩
  · rw [List.eq_nil_iff_forall_not_mem]
    intro id h
    obtain ⟨hc, hnk⟩ := (save_new_mem now2 site _ flats true id).1 h
    exact hnk (hcursub id hc)
  · rw [List.eq_nil_iff_forall_not_mem]
    intro id h
    have hc := save_updated_sub now2 site _ flats true id h
    obtain ⟨f, hf, hfid⟩ := List.mem_map.1 hc
    subst hfid
    obtain ⟨m1, hm1, hd, hs⟩ := save_current_entry now1 site d flats true f hids hf
    have hocc := filter_id_singleton_of_nodup flats f hids hf
    rcases (save_updated_mem_existing now2 site _ flats true f.id f m1 hm1 hocc).1 h
      with h1 | h1
    · exact h1 hd
    · rw [hs] at h1
      exact Status.noConfusion h1
  · rw [List.eq_nil_iff_forall_not_mem]
    intro id h
    obtain ⟨m1, hm1, hact, hnotc⟩ :=
      (save_removed_mem now2 site _ flats id hnodup1).1 h
    have := save_missing_status now1 site d flats id m1 hnodup hnotc hm1
    rw [hact] at this
    exact Status.noConfusion this
  · intro id m2 hm2
    by_cases hc : id ∈ flats.map Flat.id
    · obtain ⟨f, hf, hfid⟩ := List.mem_map.1 hc
      subst hfid
      obtain ⟨m1, hm1, hd, hs⟩ := save_current_entry now1 site d flats true f hids hf
      have hocc := filter_id_singleton_of_nodup flats f hids hf
      have hl := save_lookup_existing now2 site _ flats true f.id f m1 hm1 hocc
      rw [hl] at hm2
      injection hm2 with hm2
      subst hm2
      have hcond : ¬(m1.data ≠ f ∨ m1.status = Status.removed) := by
        simp [hd, hs]
      refine ⟨m1, hm1, ?_, ?_, ?_, ?_⟩ <;>
        simp [existingResult, hcond, hs, hd]
    · have hk2 : id ∈ dictKeys (save_apartments now2 site
          (some (save_apartments now1 site (some d) flats true).store)
          flats true).store.apartments := dictLookup_mem_keys _ _ _ hm2
      rw [save_keys_mem_iff] at hk2
      rcases hk2 with hk2 | hk2
      · exact absurd hk2 hc
      · obtain ⟨m1, hm1⟩ := dictLookup_isSome_of_mem _ _ hk2
        have hst := save_missing_status now1 site d flats id m1 hnodup hc hm1
        have hl := save_lookup_missing now2 site _ flats id m1 hnodup1 hm1 hc
        rw [hst] at hl
        rw [if_neg (fun hco => Status.noConfusion hco)] at hl
        rw [hl] at hm2
        injection hm2 with hm2
        subst hm2
        exact ⟨m1, hm1, rfl, rfl, rfl, rfl⟩

/-- C4 amended-claim witness: two saves of the same singleton batch over a
store that also held a disappearing apartment. -/
theorem resave_unchanged_idempotent_witness :
    ((save_apartments 9 "siteA"
        (some (save_apartments 8 "siteA" (some storeA) [flatA2] true).store)
        [flatA2] true).new_ids = [] ∧
      (save_apartments 9 "siteA"
        (some (save_apartments 8 "siteA" (some storeA) [flatA2] true).store)
        [flatA2] true).updated_ids = [] ∧
      (save_apartments 9 "siteA"
        (some (save_apartments 8 "siteA" (some storeA) [flatA2] true).store)
        [flatA2] true).removed_ids = [] ∧
      (save_apartments 9 "siteA"
        (some (save_apartments 8 "siteA" (some storeA) [flatA2] true).store)
        [flatA2] true).store.last_scrape = 9 ∧
      (∀ id m2, dictLookup id (save_apartments 9 "siteA"
          (some (save_apartments 8 "siteA" (some storeA) [flatA2] true).store)
          [flatA2] true).store.apartments = some m2 →
        ∃ m1, dictLookup id
            (save_apartments 8 "siteA" (some storeA) [flatA2] true).store.apartments
            = some m1 ∧
          m2.status = m1.status ∧ m2.data = m1.data ∧
          m2.first_seen = m1.first_seen ∧ m2.last_updated = m1.last_updated)) :=
  resave_unchanged_idempotent 8 9 "siteA" storeA [flatA2] (by decide) (by decide)

/-! ## Claim C3 -/

/-- C3 counterexample: a site document that exists but is unparseable is NOT
treated as empty history — the parse error of `json.load` propagates out of
`get_apartments` / `save_apartments` / `get_apartments_with_markers`,
refuting the claim that reading a malformed document succeeds. -/
theorem malformed_site_document_raises :
    get_apartments SiteFile.malformed = Except.error "json.JSONDecodeError" ∧
      save_apartments_file 1 "siteA" SiteFile.malformed [] true =
        Except.error "json.JSONDecodeError" ∧
      get_apartments_with_markers SiteFile.malformed ["rental"] true =
        Except.error "json.JSONDecodeError" :=
  ⟨rfl, rfl, rfl⟩

/-- C3 (amended): only a MISSING site document is treated as empty history —
`get_apartments` returns the empty dict, and `save_apartments` behaves as if
no apartments had ever been stored (everything in the batch is new, nothing
is updated or removed); a malformed document instead propagates the parse
error. -/
theorem missing_document_empty_history (now : Nat) (site : String)
    (flats : List Flat) (mark : Bool) :
    get_apartments SiteFile.missing = Except.ok [] ∧
      read_site_data SiteFile.missing = Except.ok none ∧
      save_apartments_file now site SiteFile.missing flats mark =
        Except.ok (save_apartments now site none flats mark) ∧
      (save_apartments now site none flats mark).updated_ids = [] ∧
      (save_apartments now site none flats mark).removed_ids = [] ∧
      (∀ id, id ∈ (save_apartments now site none flats mark).new_ids ↔
        id ∈ flats.map Flat.id) := by
  refine ⟨rfl, rfl, rfl, ?_, ?_, ?_⟩
  · simp only [save_apartments, Option.getD_none]
    rw [List.eq_nil_iff_forall_not_mem]
    intro id
    rw [loop_updated_mem_not_existing _ _ _ _ _ (by simp [dictKeys])]
    simp
  · simp only [save_apartments, Option.getD_none]
    cases mark <;> rfl
  · intro id
    simp only [save_apartments, Option.getD_none]
    rw [loop_new_mem]
    simp [dictKeys]

/-! ## Claim C7 -/

/-- C7 counterexample: with a supplied count limit of `0`, Python's
`if limit:` is falsy, so `get_change_history` returns ALL entries instead of
at most `0`. -/
theorem history_limit_zero_returns_all :
    get_change_history [sampleChange] (some 0) = [sampleChange] := rfl

/-- C7 (amended): for every positive count limit `n`, `get_change_history`
returns the `n` most recently appended changes, most recent first, and never
more than `n` entries; with no limit it returns all changes most recent
first.  (A limit of `0` is falsy in Python and behaves like no limit.) -/
theorem history_most_recent_first (history : List ApartmentChange) (n : Int)
    (hn : 1 ≤ n) :
    get_change_history history (some n) =
        (history.drop (history.length - n.toNat)).reverse ∧
      (get_change_history history (some n)).length ≤ n.toNat ∧
      get_change_history history none = history.reverse := by
  have hne : n ≠ 0 := by omega
  have hpos : 0 ≤ n := by omega
  have heq : get_change_history history (some n) =
      (history.reverse).take n.toNat := by
    simp only [get_change_history, hne, if_true, pySlice, hpos, ne_eq,
      not_false_eq_true]
  refine ⟨?_, ?_, rfl⟩
  · rw [heq, List.take_reverse]
  · rw [heq, List.length_take]
    exact min_le_left _ _

/-- C7 amended-claim witness at a concrete history and limit. -/
theorem history_most_recent_first_witness :
    get_change_history [sampleChange, sampleChange, sampleChange] (some 2) =
        (([sampleChange, sampleChange, sampleChange].drop 1)).reverse ∧
      (get_change_history [sampleChange, sampleChange, sampleChange] (some 2)).length ≤ 2 ∧
      get_change_history [sampleChange, sampleChange, sampleChange] none =
        [sampleChange, sampleChange, sampleChange].reverse :=
  history_most_recent_first [sampleChange, sampleChange, sampleChange] 2
    (by decide)

/-! ## Claim C8 -/

/-- C8: `get_apartments_with_markers` returns exactly the apartments whose
stored `markers` list meets `marker_names` (OR semantics), restricted to
active ones when `active_only` is set; an empty `marker_names` list matches
nothing. -/
theorem markers_or_semantics (d : SiteStorageData) (names : List String)
    (ao : Bool) :
    ∃ l, get_apartments_with_markers (SiteFile.wellFormed d) names ao =
        Except.ok l ∧
      (∀ p, p ∈ l ↔ p ∈ d.apartments ∧ (ao = true → p.2.status = Status.active) ∧
        ∃ mname ∈ names, mname ∈ p.2.data.markers) ∧
      (names = [] → l = []) := by
  cases ao with
  | false =>
    refine ⟨_, rfl, ?_, ?_⟩
    · intro p
      rw [List.mem_filter]
      simp [List.any_eq_true]
    · rintro rfl
      simp
  | true =>
    refine ⟨_, rfl, ?_, ?_⟩
    · intro p
      rw [List.mem_filter]
      simp only [get_active_apartments, get_apartments, read_site_data]
      rw [List.mem_filter]
      simp [List.any_eq_true, and_assoc]
    · rintro rfl
      simp

/-- C8 witness: at a concrete store, a matching marker returns the
apartment and the empty marker list returns nothing. -/
theorem markers_or_semantics_witness :
    ∃ l, get_apartments_with_markers (SiteFile.wellFormed storeA) [] true =
        Except.ok l ∧ l = [] := by
  obtain ⟨l, h1, _, h3⟩ := markers_or_semantics storeA [] true
  exact ⟨l, h1, h3 rfl⟩

/-! ## Claim C9 -/

/-- C9: when a marker pattern is an invalid regular expression (the `re`
oracle reports `re.error` for every pattern of the marker), `_matches_marker`
does not raise: each pattern is matched as a lowercased literal substring of
the assembled search text, and the marker is detected exactly when some
pattern occurs as such a substring. -/
theorem marker_invalid_regex_fallback
    (recompile : String → Option (String → Bool)) (apartment : Flat)
    (marker : MarkerConfig)
    (h : ∀ p ∈ marker.patterns, recompile (pyLower p) = none) :
    (matchesMarker recompile apartment marker = true ↔
      ∃ p ∈ marker.patterns,
        substrOccurs (pyLower p).toList
          (markerSearchText marker apartment).toList = true) := by
  have hpat : ∀ p ∈ marker.patterns,
      matchesPattern recompile p (markerSearchText marker apartment) =
        substrOccurs (pyLower p).toList
          (markerSearchText marker apartment).toList := by
    intro p hp
    unfold matchesPattern
    by_cases hlr : looksLikeRegex p
    · simp [hlr, h p hp]
    · simp [hlr]
  unfold matchesMarker
  rw [List.any_eq_true]
  constructor
  · rintro ⟨p, hp, hm⟩
    exact ⟨p, hp, by rw [← hpat p hp]; exact hm⟩
  · rintro ⟨p, hp, hs⟩
    exact ⟨p, hp, by rw [hpat p hp]; exact hs⟩

/-- C9 witness: the invalid-regex pattern `"wbs["` is found as a literal
substring of a title containing `"WBS["`, so the marker is detected. -/
theorem marker_invalid_regex_fallback_witness :
    matchesMarker (fun _ => none) ({ flatA with title := "Flat mit WBS[x]" })
      markerWbs = true := by
  rw [marker_invalid_regex_fallback (fun _ => none)
    ({ flatA with title := "Flat mit WBS[x]" }) markerWbs
    (fun p hp => rfl)]
  refine ⟨"wbs[", by decide, by decide⟩

end Wohnung
